import Mathlib

/-
Verification development for the typeblocking input-to-block pipeline.

The TypeScript sources are shallowly embedded here:
  - input strings are `List Char` (abbreviated `Str`); the JavaScript regular
    expressions used by the built-in patterns are translated into executable
    character-list matchers with the same language (all of them are anchored
    `^...$` expressions, so matching is a whole-string predicate and the
    capture groups are determined by the unique successful decomposition);
  - JavaScript numbers used for priorities / confidences are rationals;
  - the pattern manager, option generator, block factory, workspace state
    tracker and connection manager are translated function by function from
    src/typeblocking/src and the unnamed source parts.
-/

abbrev Str := List Char

/-- Code point of a character, as a natural number. -/
def charNat (c : Char) : Nat := c.toNat

/-- JavaScript regular-expression class \s (also the WhiteSpace/LineTerminator
set used by String.prototype.trim): space, tab, vertical whitespace, NBSP,
Ogham space, the U+2000..U+200A range, LS, PS, NNBSP, MMSP, ideographic space
and the BOM. -/
def isJsSpace (c : Char) : Bool :=
  decide (charNat c = 9) || decide (charNat c = 10) || decide (charNat c = 11) ||
  decide (charNat c = 12) || decide (charNat c = 13) || decide (charNat c = 32) ||
  decide (charNat c = 160) || decide (charNat c = 5760) ||
  (decide (8192 ≤ charNat c) && decide (charNat c ≤ 8202)) ||
  decide (charNat c = 8232) || decide (charNat c = 8233) || decide (charNat c = 8239) ||
  decide (charNat c = 8287) || decide (charNat c = 12288) || decide (charNat c = 65279)

/-- JavaScript line terminators: LF, CR, LS, PS.  The regular-expression
metacharacter `.` (no `s` flag anywhere in the sources) matches every
character except these. -/
def isLineTerminator (c : Char) : Bool :=
  decide (charNat c = 10) || decide (charNat c = 13) ||
  decide (charNat c = 8232) || decide (charNat c = 8233)

/-- JavaScript regular-expression class \d. -/
def isDigitChar (c : Char) : Bool :=
  decide (48 ≤ charNat c) && decide (charNat c ≤ 57)

/-- JavaScript regular-expression class \w : [A-Za-z0-9_]. -/
def isWordChar (c : Char) : Bool :=
  (decide (48 ≤ charNat c) && decide (charNat c ≤ 57)) ||
  (decide (65 ≤ charNat c) && decide (charNat c ≤ 90)) ||
  (decide (97 ≤ charNat c) && decide (charNat c ≤ 122)) ||
  decide (charNat c = 95)

/-- Single or double quote, the character class ["'] of the text pattern. -/
def isQuote (c : Char) : Bool :=
  decide (charNat c = 34) || decide (charNat c = 39)

/-- ASCII model of String.prototype.toLowerCase, adequate for the
case-insensitive `/i` regular expressions of the sources (their letters are
all ASCII). -/
def toLowerChar (c : Char) : Char :=
  if 65 ≤ charNat c ∧ charNat c ≤ 90 then Char.ofNat (charNat c + 32) else c

/-- String.prototype.trim: strip leading and trailing JS whitespace. -/
def jsTrim (s : Str) : Str :=
  ((s.dropWhile isJsSpace).reverse.dropWhile isJsSpace).reverse

/-
Built-in pattern grammars, from src/unnamed/part_005 (builtin-patterns.ts).
-/

/-- Language of the number pattern regex /^-?\d*\.?\d+$/ : an optional minus
sign, then a nonempty digit/dot string with at most one dot whose last
character is a digit (`\d*\.?\d+` accepts exactly those strings: with no dot
it is `\d+`; with one dot it is `\d* . \d+`, i.e. the dot is not last). -/
def numberGrammar (s : Str) : Bool :=
  let r := match s with
           | c :: rest => if c = '-' then rest else s
           | [] => s
  (!r.isEmpty) && r.all (fun c => isDigitChar c || c = '.') &&
  decide (r.countP (fun c => decide (c = '.')) ≤ 1) &&
  (match r.getLast? with
   | some c => isDigitChar c
   | none => false)

/-- input.match on the number pattern: the regex has no capture group, so the
match array is just [match[0]] and match[0] is the whole input. -/
def numberMatchFn (s : Str) : Option (List Str) :=
  if numberGrammar s then some [s] else none

/-- input.match on the text pattern regex /^["'](.*)["']$/ : an opening quote,
a closing quote (not necessarily the same one), and in between the capture
group (.*), whose `.` excludes line terminators.  The decomposition is
forced by the anchors, so match[1] is everything strictly between the first
and the last character. -/
def textMatchFn (s : Str) : Option (List Str) :=
  match s with
  | c :: rest =>
    if isQuote c then
      match rest.reverse with
      | d :: midRev =>
        if isQuote d && midRev.reverse.all (fun x => !isLineTerminator x) then
          some [s, midRev.reverse]
        else none
      | [] => none
    else none
  | [] => none

/-- Language of the boolean pattern regex /^(true|false)$/i. -/
def booleanGrammar (s : Str) : Bool :=
  decide (s.map toLowerChar = "true".toList) || decide (s.map toLowerChar = "false".toList)

/-- input.match on the boolean pattern: group 1 is the whole input (with its
original casing). -/
def booleanMatchFn (s : Str) : Option (List Str) :=
  if booleanGrammar s then some [s, s] else none

/-- input.match on the math-expression regex
/^(\d+(?:\.\d+)?)\s*([+\-*\/])\s*(\d+(?:\.\d+)?)$/.
Because \d, \s, the operator class and `.` are pairwise disjoint at each
boundary, every quantifier extent is forced and the parse below is the only
possible decomposition. -/
def mathExprMatchFn (s : Str) : Option (List Str) :=
  let d1 := s.takeWhile isDigitChar
  let r1 := s.dropWhile isDigitChar
  if d1.isEmpty then none else
  let fr1 : Str × Str :=
    match r1 with
    | '.' :: rest =>
      let ds := rest.takeWhile isDigitChar
      if ds.isEmpty then ([], r1) else ('.' :: ds, rest.dropWhile isDigitChar)
    | _ => ([], r1)
  let r3 := fr1.2.dropWhile isJsSpace
  match r3 with
  | op :: r4 =>
    if op = '+' ∨ op = '-' ∨ op = '*' ∨ op = '/' then
      let r5 := r4.dropWhile isJsSpace
      let d2 := r5.takeWhile isDigitChar
      let r6 := r5.dropWhile isDigitChar
      if d2.isEmpty then none else
      match r6 with
      | '.' :: rest2 =>
        let ds2 := rest2.takeWhile isDigitChar
        if ds2.isEmpty then none
        else if (rest2.dropWhile isDigitChar).isEmpty then
          some [s, d1 ++ fr1.1, [op], d2 ++ '.' :: ds2]
        else none
      | [] => some [s, d1 ++ fr1.1, [op], d2]
      | _ => none
    else none
  | [] => none

/-- input.match on the variable-assignment regex /^set\s+(\w+)\s+to\s+(.+)$/i,
returning (group 1, group 2).  \w and \s are disjoint and `to` starts with a
non-space letter, so every quantifier extent up to the final `\s+(.+)$` is
forced; in `\s+(.+)$` the greedy `\s+` takes the maximal whitespace run and
backtracks exactly one character (which must not be a line terminator, since
`.` excludes those) when the remainder would otherwise be empty. -/
def assignMatch (s : Str) : Option (Str × Str) :=
  match s with
  | c1 :: c2 :: c3 :: rest =>
    if toLowerChar c1 = 's' ∧ toLowerChar c2 = 'e' ∧ toLowerChar c3 = 't' then
      let ws1 := rest.takeWhile isJsSpace
      let r1 := rest.dropWhile isJsSpace
      if ws1.isEmpty then none else
      let varN := r1.takeWhile isWordChar
      let r2 := r1.dropWhile isWordChar
      if varN.isEmpty then none else
      let ws2 := r2.takeWhile isJsSpace
      let r3 := r2.dropWhile isJsSpace
      if ws2.isEmpty then none else
      match r3 with
      | t1 :: t2 :: r4 =>
        if toLowerChar t1 = 't' ∧ toLowerChar t2 = 'o' then
          let ws3 := r4.takeWhile isJsSpace
          let rest4 := r4.dropWhile isJsSpace
          if ws3.isEmpty then none
          else if rest4.isEmpty then
            match ws3.getLast? with
            | some c => if isLineTerminator c then none else some (varN, [c])
            | none => none
          else if rest4.all (fun c => !isLineTerminator c) then some (varN, rest4)
          else none
        else none
      | _ => none
    else none
  | _ => none

/-- Variable-assignment pattern match array: [match[0], varName, valueText]. -/
def assignMatchFn (s : Str) : Option (List Str) :=
  (assignMatch s).map (fun vr => [s, vr.1, vr.2])

/-
Block-creation instructions (pattern-types.ts) and the parseInput functions.
-/

/-- BlockCreationInstruction: block type, field values, and recursively the
children, each labelled with the input socket name it attaches to. -/
inductive BlockInstr where
  | mk (blockType : String) (fieldValues : List (String × Str))
      (children : List (String × BlockInstr))

def BlockInstr.btype : BlockInstr → String
  | .mk t _ _ => t

def BlockInstr.fieldVals : BlockInstr → List (String × Str)
  | .mk _ f _ => f

def BlockInstr.childList : BlockInstr → List (String × BlockInstr)
  | .mk _ _ c => c

/-- Whether JavaScript parseFloat(s) is NaN: after skipping leading
whitespace and an optional sign, the string must begin with a digit, a dot
followed by a digit, or the literal Infinity. -/
def jsParseFloatIsNaN (s : Str) : Bool :=
  let t := s.dropWhile isJsSpace
  let u := match t with
           | c :: rest => if c = '+' ∨ c = '-' then rest else t
           | [] => t
  match u with
  | c :: rest =>
    !(isDigitChar c ||
      (decide (c = '.') && (match rest with
                            | d :: _ => isDigitChar d
                            | [] => false)) ||
      List.isPrefixOf "Infinity".toList u)
  | [] => true

/-- NumberPattern.parseInput: reject if parseFloat gives NaN, else a
math_number block whose NUM field is the matched text verbatim. -/
def numberParse (m : List Str) : Option BlockInstr :=
  let value := m.getD 0 []
  if jsParseFloatIsNaN value then none
  else some (.mk "math_number" [("NUM", value)] [])

/-- TextPattern.parseInput: a text block whose TEXT field is group 1 (the
content between the quotes). -/
def textParse (m : List Str) : Option BlockInstr :=
  some (.mk "text" [("TEXT", m.getD 1 [])] [])

/-- BooleanPattern.parseInput: lower-case group 1 and compare with "true". -/
def booleanParse (m : List Str) : Option BlockInstr :=
  let value := (m.getD 1 []).map toLowerChar
  let isTrue := decide (value = "true".toList)
  some (.mk "logic_boolean" [("BOOL", if isTrue then "TRUE".toList else "FALSE".toList)] [])

/-- MathExpressionPattern's operator table. -/
def operatorMapLookup (op : Str) : Option String :=
  if op = ['+'] then some "ADD"
  else if op = ['-'] then some "MINUS"
  else if op = ['*'] then some "MULTIPLY"
  else if op = ['/'] then some "DIVIDE"
  else none

/-- MathExpressionPattern.parseInput. -/
def mathExprParse (m : List Str) : Option BlockInstr :=
  match operatorMapLookup (m.getD 2 []) with
  | none => none
  | some oc =>
    some (.mk "math_arithmetic" [("OP", oc.toList)]
      [("A", .mk "math_number" [("NUM", m.getD 1 [])] []),
       ("B", .mk "math_number" [("NUM", m.getD 3 [])] [])])

/-- VariableAssignmentPattern.parseValueInstruction: re-run, in order, the
number / quoted-text / boolean / bare-identifier recognizers over the value
text. -/
def parseValueInstruction (value : Str) : Option BlockInstr :=
  if numberGrammar value then
    some (.mk "math_number" [("NUM", value)] [])
  else
    match textMatchFn value with
    | some m => some (.mk "text" [("TEXT", m.getD 1 [])] [])
    | none =>
      if booleanGrammar value then
        some (.mk "logic_boolean"
          [("BOOL", if decide (value.map toLowerChar = "true".toList)
                    then "TRUE".toList else "FALSE".toList)] [])
      else if (!value.isEmpty) && value.all isWordChar then
        some (.mk "variables_get" [("VAR", value)] [])
      else none

/-- VariableAssignmentPattern.parseInput. -/
def variableAssignmentParse (m : List Str) : Option BlockInstr :=
  let varName := m.getD 1 []
  let valueText := m.getD 2 []
  match parseValueInstruction (jsTrim valueText) with
  | none => none
  | some vi => some (.mk "variables_set" [("VAR", varName)] [("VALUE", vi)])

/-
InputPattern objects and the pattern manager (pattern-manager.ts).
-/

/-- An InputPattern: name, grammar (modelled as the function computing
input.match against the pattern's regex), priority, description, the
parseInput function and the optional isComplete predicate. -/
structure InputPattern where
  name : String
  priority : ℚ
  description : String
  matchFn : Str → Option (List Str)
  isComplete : Option (Str → Bool)
  parse : List Str → Option BlockInstr

/-- BasePattern#isComplete default: re-test the grammar on the trimmed input. -/
def defaultIsComplete (mf : Str → Option (List Str)) : Str → Bool :=
  fun input => (mf (jsTrim input)).isSome

def numberPatternE : InputPattern :=
  { name := "number", priority := 100,
    description := "Create number block from numeric input",
    matchFn := numberMatchFn,
    isComplete := some (defaultIsComplete numberMatchFn),
    parse := numberParse }

def textPatternE : InputPattern :=
  { name := "text", priority := 95,
    description := "Create text block from quoted string",
    matchFn := textMatchFn,
    isComplete := some (defaultIsComplete textMatchFn),
    parse := textParse }

def booleanPatternE : InputPattern :=
  { name := "boolean", priority := 90,
    description := "Create boolean block from true/false",
    matchFn := booleanMatchFn,
    isComplete := some (defaultIsComplete booleanMatchFn),
    parse := booleanParse }

def mathExpressionPatternE : InputPattern :=
  { name := "math_expression", priority := 80,
    description := "Create arithmetic block from math expression",
    matchFn := mathExprMatchFn,
    isComplete := some (defaultIsComplete mathExprMatchFn),
    parse := mathExprParse }

def variableAssignmentPatternE : InputPattern :=
  { name := "variable_assignment", priority := 85,
    description := "Create variable assignment from set var to value syntax",
    matchFn := assignMatchFn,
    isComplete := some (defaultIsComplete assignMatchFn),
    parse := variableAssignmentParse }

/-- getBuiltinPatterns(), in source order. -/
def builtinPatternList : List InputPattern :=
  [numberPatternE, textPatternE, booleanPatternE,
   mathExpressionPatternE, variableAssignmentPatternE]

/-- PatternDetectionResult. -/
structure DetectionResult where
  pattern : InputPattern
  groups : List Str
  confidence : ℚ

/-- The `pattern.isComplete && pattern.isComplete(input)` guard. -/
def isCompleteHolds (p : InputPattern) (input : Str) : Bool :=
  match p.isComplete with
  | some f => f input
  | none => false

/-- Math.min on rationals, written out so that it evaluates by kernel
reduction. -/
def jsMin (a b : ℚ) : ℚ := if a ≤ b then a else b

/-- InputPatternManager.calculateConfidence, translated step by step:
base 0.8, +0.15 for a full trimmed-input match, +0.05 when the pattern
reports the input complete, + priority/1000, capped at 1.0. -/
def calculateConfidence (p : InputPattern) (m : List Str) (input : Str) : ℚ :=
  let c0 : ℚ := 0.8
  let c1 : ℚ := if m.getD 0 [] = jsTrim input then c0 + 0.15 else c0
  let c2 : ℚ := if isCompleteHolds p input then c1 + 0.05 else c1
  let c3 : ℚ := c2 + p.priority / 1000
  jsMin c3 1

/-- The loop body of InputPatternManager.detectPattern, with the running
bestResult as accumulator.  (The per-input memo cache of the source is a
transparent cache of this pure computation and is not modelled.) -/
def detectPatternGo (threshold : ℚ) (input : Str) :
    List InputPattern → Option DetectionResult → Option DetectionResult
  | [], best => best
  | p :: ps, best =>
    match p.matchFn input with
    | none => detectPatternGo threshold input ps best
    | some m =>
      let conf := calculateConfidence p m input
      if threshold ≤ conf then
        if (0.95 : ℚ) ≤ conf then some ⟨p, m, conf⟩
        else
          match best with
          | none => detectPatternGo threshold input ps (some ⟨p, m, conf⟩)
          | some b =>
            if b.confidence < conf then detectPatternGo threshold input ps (some ⟨p, m, conf⟩)
            else detectPatternGo threshold input ps best
      else detectPatternGo threshold input ps best

/-- InputPatternManager.detectPattern over the manager's (priority-sorted)
pattern list. -/
def detectPattern (threshold : ℚ) (ps : List InputPattern) (input : Str) :
    Option DetectionResult :=
  detectPatternGo threshold input ps none

/-- All grammar matches of the input, in pattern-iteration order, with their
confidences — the reference list against which detectPattern is specified. -/
def matchResults (input : Str) (ps : List InputPattern) : List DetectionResult :=
  ps.filterMap (fun p => (p.matchFn input).map (fun m => ⟨p, m, calculateConfidence p m input⟩))

/-- The matches that clear the confidence threshold. -/
def thresholdFilter (threshold : ℚ) (l : List DetectionResult) : List DetectionResult :=
  l.filter (fun x => decide (threshold ≤ x.confidence))

/-- The first match whose confidence reaches the 0.95 short-circuit level. -/
def firstHighMatch (input : Str) (ps : List InputPattern) : Option DetectionResult :=
  (matchResults input ps).find? (fun x => decide ((0.95 : ℚ) ≤ x.confidence))

/-
Pattern configuration and registration (pattern-manager.ts).
-/

structure PatternConfig where
  enableNumberDetection : Bool
  enableTextDetection : Bool
  enableBooleanDetection : Bool
  enableMathExpressions : Bool
  enableVariableAssignments : Bool
  customPatterns : List InputPattern
  patternPriorities : List (String × ℚ)
  confidenceThreshold : ℚ

/-- The constructor defaults of InputPatternManager. -/
def defaultPatternConfig : PatternConfig :=
  { enableNumberDetection := true, enableTextDetection := true,
    enableBooleanDetection := true, enableMathExpressions := true,
    enableVariableAssignments := true, customPatterns := [],
    patternPriorities := [], confidenceThreshold := 0.7 }

/-- this.config.patternPriorities[pattern.name] (undefined when absent). -/
def lookupPriority (cfg : PatternConfig) (nm : String) : Option ℚ :=
  (cfg.patternPriorities.find? (fun x => x.1 == nm)).map (fun x => x.2)

/-- InputPatternManager.isPatternEnabled. -/
def isPatternEnabled (cfg : PatternConfig) (p : InputPattern) : Bool :=
  if p.name == "number" then cfg.enableNumberDetection
  else if p.name == "text" then cfg.enableTextDetection
  else if p.name == "boolean" then cfg.enableBooleanDetection
  else if p.name == "math_expression" then cfg.enableMathExpressions
  else if p.name == "variable_assignment" then cfg.enableVariableAssignments
  else true

/-- The priority-override step of registerBuiltinPatterns.  The source
mutates the pattern object in place (`(pattern as any).priority = ...`)
whenever the configured override is truthy (present and nonzero); the model
represents the mutated object as an updated record. -/
def applyPriorityOverride (cfg : PatternConfig) (p : InputPattern) : InputPattern :=
  match lookupPriority cfg p.name with
  | some v => if v ≠ 0 then { p with priority := v } else p
  | none => p

/-- Stable insertion sort: x is placed before the first y it should not
follow.  Used to model Array.prototype.sort (stable per the ECMAScript
specification) with the numeric comparators of the sources. -/
def insertLe {α : Type} (le : α → α → Bool) (x : α) : List α → List α
  | [] => [x]
  | y :: ys => if le x y then x :: y :: ys else y :: insertLe le x ys

def stableSort {α : Type} (le : α → α → Bool) : List α → List α
  | [] => []
  | x :: xs => insertLe le x (stableSort le xs)

/-- sort((a, b) => b.priority - a.priority): stable descending by key. -/
def sortByKeyDesc {α : Type} (key : α → ℚ) (l : List α) : List α :=
  stableSort (fun a b => decide (key b ≤ key a)) l

/-- InputPatternManager.sortPatterns. -/
def sortPatterns (l : List InputPattern) : List InputPattern :=
  sortByKeyDesc InputPattern.priority l

/-- InputPatternManager.registerBuiltinPatterns applied to the manager's
current pattern list: filter by the enable flags, apply priority overrides,
append, re-sort. -/
def registerBuiltinPatterns (cfg : PatternConfig) (existing : List InputPattern)
    (pats : List InputPattern) : List InputPattern :=
  sortPatterns (existing ++ (pats.filter (isPatternEnabled cfg)).map (applyPriorityOverride cfg))

/-- InputPatternManager.initializePatterns: start from the custom patterns,
sorted. -/
def initialPatterns (cfg : PatternConfig) : List InputPattern :=
  sortPatterns cfg.customPatterns

/-- The manager's pattern list after construction plus
registerBuiltinPatterns(getBuiltinPatterns()). -/
def managerPatterns (cfg : PatternConfig) (builtins : List InputPattern) : List InputPattern :=
  registerBuiltinPatterns cfg (initialPatterns cfg) builtins

/-- The pattern list of a default-configured manager with the built-in
patterns registered (as built by SmartBlockFactory / SmartOptionGenerator). -/
def defaultManagerPatterns : List InputPattern :=
  managerPatterns defaultPatternConfig builtinPatternList

/-
Option generation (option-generator.ts).
-/

/-- An autocomplete Option: target block type and display text. -/
structure AutoOption where
  blockType : Str
  displayText : Str
deriving DecidableEq

/-- blockTypeToDisplayText: substitute underscores with spaces. -/
def blockTypeToDisplayText (t : Str) : Str :=
  t.map (fun c => if c = '_' then ' ' else c)

/-- One registered entry of the host's block registry (Blockly.Blocks):
the type identifier and, when the definition carries one, its typeblock
display label.  Block definitions are objects, hence truthy, so the
isValidBuiltinBlock check of the source is always satisfied for a
registered type. -/
structure BlockDef where
  btype : Str
  typeblock : Option Str
deriving DecidableEq

/-- The editor-state inputs of WorkspaceOptionGenerator.generateOptions:
the block registry in iteration order, the globally declared variable names,
the scope analyzer's in-scope variable names when an analyzer is set, and
the (name, parameter list) of every procedure definition found on the
workspace. -/
structure WorkspaceModel where
  blocks : List BlockDef
  varNames : List Str
  scopeVars : Option (List Str)
  procedures : List (Str × List Str)

/-- WorkspaceOptionGenerator.shouldSkipBlock: procedure-definition blocks,
the raw variables_get/variables_set primitives, and underscore-prefixed
internal types. -/
def shouldSkipBlock (t : Str) : Bool :=
  List.isPrefixOf "procedures_".toList t ||
  decide (t = "variables_get".toList) ||
  decide (t = "variables_set".toList) ||
  List.isPrefixOf "_".toList t

/-- WorkspaceOptionGenerator.getBuiltinBlockOptions. -/
def getBuiltinBlockOptions (ws : WorkspaceModel) : List AutoOption :=
  ws.blocks.filterMap (fun b =>
    if shouldSkipBlock b.btype then none
    else
      match b.typeblock with
      | some tb => some ⟨b.btype, tb⟩
      | none => some ⟨b.btype, blockTypeToDisplayText b.btype⟩)

/-- WorkspaceOptionGenerator.getVariableOptions: a get/set pair per global
variable, then a get/set pair per analyzer-reported local variable. -/
def getVariableOptions (ws : WorkspaceModel) : List AutoOption :=
  (ws.varNames.flatMap (fun v =>
    [⟨"get ".toList ++ v, "get ".toList ++ v⟩,
     ⟨"set ".toList ++ v ++ " to".toList, "set ".toList ++ v ++ " to".toList⟩])) ++
  (match ws.scopeVars with
   | some lvs =>
     lvs.flatMap (fun v =>
       [⟨"get ".toList ++ v, "get ".toList ++ v⟩,
        ⟨"set ".toList ++ v ++ " to".toList, "set ".toList ++ v ++ " to".toList⟩])
   | none => [])

/-- WorkspaceOptionGenerator.getProcedureOptions: for each procedure whose
name is nonempty (and nonempty after trimming), the bare name, plus a
parenthesized-parameters variant when it has parameters. -/
def getProcedureOptions (ws : WorkspaceModel) : List AutoOption :=
  ws.procedures.flatMap (fun np =>
    if (!np.1.isEmpty) && !(jsTrim np.1).isEmpty then
      ⟨np.1, np.1⟩ ::
      (if !np.2.isEmpty then
        [⟨np.1 ++ '(' :: (List.intercalate ", ".toList np.2) ++ [')'],
          np.1 ++ '(' :: (List.intercalate ", ".toList np.2) ++ [')']⟩]
      else [])
    else [])

/-- The concatenation of the three sources, before deduplication. -/
def rawOptions (ws : WorkspaceModel) : List AutoOption :=
  getBuiltinBlockOptions ws ++ getVariableOptions ws ++ getProcedureOptions ws

/-- The dedup key of generateOptions: the template string
blockType:displayText. -/
def optionKey (o : AutoOption) : Str :=
  o.blockType ++ ':' :: o.displayText

/-- The Set-based filter of generateOptions: keep an option unless its key
was already seen. -/
def dedupeGo (seen : List Str) : List AutoOption → List AutoOption
  | [] => []
  | o :: os =>
    if optionKey o ∈ seen then dedupeGo seen os
    else o :: dedupeGo (optionKey o :: seen) os

def dedupeOptions (l : List AutoOption) : List AutoOption :=
  dedupeGo [] l

/-- WorkspaceOptionGenerator.generateOptions. -/
def generateOptions (ws : WorkspaceModel) : List AutoOption :=
  dedupeOptions (rawOptions ws)

/-
Block factory (src/unnamed/part_013, block-factory.ts),
createBlockFromInstruction.
-/

/-- The host-dependent behaviour of block materialization.  Every way the
source's per-call try block can throw is expressible:
`throws` — instantiating (newBlock / initSvg / render of) a block type
throws; `hasField` — which fields a block type has (setValue runs only when
getField is truthy); `setValueThrows` — setting a given field of a given
block type to a given value throws (this covers value-dependent setValue
failures, including the variable-id path); `hasInput` / `hasOutput` — the
guard `if (input && childBlock.outputConnection)`; `connectThrows` —
the attachment `childBlock.outputConnection.connect(input.connection!)`
throws (a failed connection check, or a null input.connection hit by the
non-null assertion), as a function of the parent type, the input name and
the child type. -/
structure FactoryEnv where
  throws : String → Bool
  hasField : String → String → Bool
  setValueThrows : String → String → Str → Bool
  hasInput : String → String → Bool
  hasOutput : String → Bool
  connectThrows : String → String → String → Bool

/-- A materialized block: its type, the fields that were set, and the
children successfully created and attached to inputs.  The durable-id
resolution for variable fields is abstracted: the stored field value is the
one from the instruction. -/
inductive BBlock where
  | mk (btype : String) (fields : List (String × Str)) (children : List (String × BBlock))

def BBlock.btype : BBlock → String
  | .mk t _ _ => t

def BBlock.children : BBlock → List (String × BBlock)
  | .mk _ _ c => c

mutual
/-- BlockFactory.createBlockFromInstruction.  Each recursive call has its own
try/catch, whose scope is the whole frame: instantiation, the field-setting
loop, and the child-attachment connect calls all throw into THIS call's
catch and yield none.  A CHILD call returning undefined (caught in the
child's own frame) merely skips that child (`if (childBlock)`), and the
parent still returns its block. -/
def createBlockFromInstruction (env : FactoryEnv) : BlockInstr → Option BBlock
  | .mk bt fvs cs =>
    if env.throws bt then none
    else if fvs.any (fun fv => env.hasField bt fv.1 && env.setValueThrows bt fv.1 fv.2) then
      none
    else
      match createChildBlocks env bt cs with
      | none => none
      | some children =>
        some (.mk bt (fvs.filter (fun fv => env.hasField bt fv.1)) children)

/-- The `for (const child of instruction.children)` loop, run inside the
PARENT's try block: a child call returning undefined is skipped; a
materialized child is connected when the named input exists and the child
has an output connection, and a throwing connect aborts the whole parent
frame (none). -/
def createChildBlocks (env : FactoryEnv) (bt : String) :
    List (String × BlockInstr) → Option (List (String × BBlock))
  | [] => some []
  | (nm, ci) :: rest =>
    match createBlockFromInstruction env ci with
    | some cb =>
      if env.hasInput bt nm && env.hasOutput cb.btype then
        if env.connectThrows bt nm cb.btype then none
        else
          match createChildBlocks env bt rest with
          | none => none
          | some l => some ((nm, cb) :: l)
      else createChildBlocks env bt rest
    | none => createChildBlocks env bt rest
end

/-
Workspace state tracker (src/unnamed/part_009, workspace-state-tracker.ts).
-/

/-- The operations that touch the tracker's dirty flag. -/
inductive TrackerEvent where
  | invalidate (reason : String)
  | markReloaded
deriving DecidableEq

/-- One step of DefaultWorkspaceStateTracker: invalidate sets _needsReload
(only writing when it was clear, as the source does), markReloaded clears
it. -/
def trackerStep (e : TrackerEvent) (needsReload : Bool) : Bool :=
  match e with
  | .invalidate _ => if needsReload then needsReload else true
  | .markReloaded => false

/-- A sequence of tracker operations applied in order. -/
def trackerRun : List TrackerEvent → Bool → Bool
  | [], b => b
  | e :: es, b => trackerRun es (trackerStep e b)

/-
Connection strategies and the connection manager
(src/unnamed/part_011 connection-strategies.ts, connection-manager.ts).
-/

/-- A Blockly connection: its getCheck() list (null = unrestricted) and
whether it is currently connected. -/
structure BConn where
  chk : Option (List String)
  connected : Bool
deriving DecidableEq

/-- Input kinds (Blockly.inputs.inputTypes): only STATEMENT is inspected by
the strategies. -/
inductive InputKind where
  | value
  | statement
  | dummy
deriving DecidableEq

/-- One entry of block.inputList: name, kind, and its connection (if any). -/
structure BInput where
  iname : String
  kind : InputKind
  conn : Option BConn
deriving DecidableEq

/-- A block as seen by the connection machinery. -/
structure CBlock where
  idn : Nat
  prevConn : Option BConn
  nextConn : Option BConn
  outConn : Option BConn
  inputs : List BInput
deriving DecidableEq

/-- BaseConnectionStrategy.areTypesCompatible: false when a connection is
absent; compatible when either getCheck() is null or the check lists
intersect. -/
def areTypesCompatible (c1 c2 : Option BConn) : Bool :=
  match c1, c2 with
  | some a, some b =>
    match a.chk, b.chk with
    | none, _ => true
    | _, none => true
    | some t1, some t2 => t1.any (fun ty => t2.contains ty)
  | _, _ => false

/-- The outcome record of a strategy's connect. -/
structure ConnResult where
  success : Bool
  connectionType : Option String
  targetConnection : Option BConn
  reason : Option String
deriving DecidableEq

/-- A connection strategy. -/
structure Strategy where
  sname : String
  priority : ℚ
  canConnect : CBlock → CBlock → Bool
  connect : CBlock → CBlock → ConnResult

/-- StatementSequenceConnector.canConnect. -/
def seqCanConnect (n t : CBlock) : Bool :=
  match n.prevConn with
  | none => false
  | some p =>
    match t.nextConn with
    | none => false
    | some nx => if nx.connected then false else areTypesCompatible (some p) (some nx)

/-- StatementSequenceConnector.connect (the host connect call is modelled as
succeeding; its side effects are not represented in the result record). -/
def seqConnect (n t : CBlock) : ConnResult :=
  if seqCanConnect n t then
    { success := true, connectionType := some "statement_sequence",
      targetConnection := t.nextConn, reason := none }
  else
    { success := false, connectionType := none, targetConnection := none,
      reason := some "Blocks not compatible for statement sequence connection" }

/-- ValueInputConnector.findCompatibleInput: first free, type-compatible
input connection in declaration order. -/
def findCompatibleInput (n t : CBlock) : Option BConn :=
  match n.outConn with
  | none => none
  | some _ =>
    (t.inputs.find? (fun inp =>
      match inp.conn with
      | some c => (!c.connected) && areTypesCompatible n.outConn (some c)
      | none => false)).bind (fun inp => inp.conn)

/-- ValueInputConnector.canConnect. -/
def valueCanConnect (n t : CBlock) : Bool :=
  n.outConn.isSome && (findCompatibleInput n t).isSome

/-- ValueInputConnector.connect. -/
def valueConnect (n t : CBlock) : ConnResult :=
  match n.outConn with
  | none =>
    { success := false, connectionType := none, targetConnection := none,
      reason := some "New block has no output connection" }
  | some _ =>
    match findCompatibleInput n t with
    | none =>
      { success := false, connectionType := none, targetConnection := none,
        reason := some "No compatible input connection found" }
    | some c =>
      { success := true, connectionType := some "value_input",
        targetConnection := some c, reason := none }

/-- StatementInsertionConnector.canConnect. -/
def insertCanConnect (n t : CBlock) : Bool :=
  match n.nextConn, n.prevConn with
  | some nn, some np =>
    match t.prevConn with
    | none => false
    | some tp => areTypesCompatible (some nn) (some tp) && areTypesCompatible (some np) (some tp)
  | _, _ => false

/-- StatementInsertionConnector.connect. -/
def insertConnect (n t : CBlock) : ConnResult :=
  if insertCanConnect n t then
    { success := true, connectionType := some "statement_insertion",
      targetConnection := t.prevConn, reason := none }
  else
    { success := false, connectionType := none, targetConnection := none,
      reason := some "Blocks not compatible for statement insertion" }

/-- WrapperConnector.getStatementInputs. -/
def getStatementInputs (b : CBlock) : List BConn :=
  b.inputs.filterMap (fun inp =>
    if inp.kind = InputKind.statement then inp.conn else none)

/-- WrapperConnector.canConnect. -/
def wrapperCanConnect (n t : CBlock) : Bool :=
  match getStatementInputs n with
  | [] => false
  | si :: _ =>
    match t.prevConn with
    | none => false
    | some tp => areTypesCompatible (some tp) (some si)

/-- WrapperConnector.connect. -/
def wrapperConnect (n t : CBlock) : ConnResult :=
  if wrapperCanConnect n t then
    { success := true, connectionType := some "wrapper",
      targetConnection := (getStatementInputs n).head?, reason := none }
  else
    { success := false, connectionType := none, targetConnection := none,
      reason := some "Blocks not compatible for wrapping" }

def statementSequenceConnector : Strategy :=
  { sname := "StatementSequence", priority := 90,
    canConnect := seqCanConnect, connect := seqConnect }

def valueInputConnector : Strategy :=
  { sname := "ValueInput", priority := 80,
    canConnect := valueCanConnect, connect := valueConnect }

def statementInsertionConnector : Strategy :=
  { sname := "StatementInsertion", priority := 70,
    canConnect := insertCanConnect, connect := insertConnect }

def wrapperConnector : Strategy :=
  { sname := "Wrapper", priority := 60,
    canConnect := wrapperCanConnect, connect := wrapperConnect }

/-- ConnectionManager.getDefaultStrategies, in source order. -/
def defaultStrategies : List Strategy :=
  [statementSequenceConnector, valueInputConnector,
   statementInsertionConnector, wrapperConnector]

/-- The constructor's `strategies.sort((a, b) => b.priority - a.priority)`. -/
def sortedDefaultStrategies : List Strategy :=
  sortByKeyDesc Strategy.priority defaultStrategies

/-- ConnectionManager.countConnectedInputs. -/
def countConnectedInputs (b : CBlock) : Nat :=
  b.inputs.countP (fun inp =>
    match inp.conn with
    | some c => c.connected
    | none => false)

/-- The smart-prioritization comparator of getPriorizedTargetBlocks. -/
def smartCompare (strategies : List Strategy) (n : CBlock) (a b : CBlock) : Int :=
  match strategies.find? (fun s => s.sname == "ValueInput") with
  | none => 0
  | some vs =>
    let aCan := vs.canConnect n a
    let bCan := vs.canConnect n b
    if aCan && !bCan then -1
    else if (!aCan) && bCan then 1
    else if aCan && bCan then
      let aCnt := countConnectedInputs a
      let bCnt := countConnectedInputs b
      if aCnt ≠ bCnt then (aCnt : Int) - (bCnt : Int) else 0
    else 0

/-- ConnectionContext, with the nearby blocks already resolved (the geometric
radius search of findNearbyBlocks is outside the scope of the modelled
claims). -/
structure ConnContext where
  selectedBlock : Option CBlock
  nearbyBlocks : List CBlock

/-- The `[...new Set(targets)]` step: keep first occurrences in order. -/
def dedupFirstGo {α : Type} [DecidableEq α] (seen : List α) : List α → List α
  | [] => []
  | x :: xs =>
    if x ∈ seen then dedupFirstGo seen xs
    else x :: dedupFirstGo (x :: seen) xs

def dedupFirst {α : Type} [DecidableEq α] (l : List α) : List α :=
  dedupFirstGo [] l

/-- ConnectionManager.getPriorizedTargetBlocks: the selected block first,
then the nearby blocks (minus the selected one) under the stable smart
comparator sort, deduplicated. -/
def getPriorizedTargetBlocks (strategies : List Strategy) (n : CBlock)
    (ctx : ConnContext) : List CBlock :=
  let sel := match ctx.selectedBlock with
             | some sb => [sb]
             | none => []
  let nearbyUnselected := ctx.nearbyBlocks.filter (fun b => decide (some b ≠ ctx.selectedBlock))
  let smartSorted := stableSort (fun a b => decide (smartCompare strategies n a b ≤ 0))
    nearbyUnselected
  dedupFirst (sel ++ smartSorted)

/-- The inner strategy loop of findAndMakeConnection for one target: the
first strategy that canConnect and whose connect succeeds wins; a failing
connect moves on to the next strategy. -/
def tryStrategiesOnTarget (n t : CBlock) : List Strategy → Option ConnResult
  | [] => none
  | s :: ss =>
    if s.canConnect n t then
      let r := s.connect n t
      if r.success then some r else tryStrategiesOnTarget n t ss
    else tryStrategiesOnTarget n t ss

/-- ConnectionManager.findAndMakeConnection: outer loop over targets in
priority order, inner loop over strategies; the first success ends the whole
search. -/
def findAndMakeConnection (n : CBlock) (strategies : List Strategy) :
    List CBlock → Option ConnResult
  | [] => none
  | t :: ts =>
    match tryStrategiesOnTarget n t strategies with
    | some r => some r
    | none => findAndMakeConnection n strategies ts

/-- The connection search with the default strategy set, as run by
attemptConnection for a context with resolved nearby blocks. -/
def connectionSearch (n : CBlock) (ctx : ConnContext) : Option ConnResult :=
  findAndMakeConnection n sortedDefaultStrategies
    (getPriorizedTargetBlocks sortedDefaultStrategies n ctx)

/-
Specification-side helpers and concrete fixtures.
-/

/-- Specification-side definition for the refinement claim about
variable assignments: what parsing the literal ALONE through the
corresponding literal pattern (number / text / boolean, whichever grammar
matches) would produce. -/
def parseLiteralAlone (lit : Str) : Option BlockInstr :=
  match numberPatternE.matchFn lit with
  | some m => numberPatternE.parse m
  | none =>
    match textPatternE.matchFn lit with
    | some m => textPatternE.parse m
    | none =>
      match booleanPatternE.matchFn lit with
      | some m => booleanPatternE.parse m
      | none => none

/-- A configuration that supplies a priority override for the number
pattern. -/
def cfgOverrideNumber : PatternConfig :=
  { defaultPatternConfig with patternPriorities := [("number", 50)] }

/-- A pattern whose grammar matches everything, used to probe detectPattern
under a non-default threshold: it has no isComplete hook and priority 10, so
any whole (untrimmable) input scores 0.8 + 0.15 + 10/1000 = 0.96. -/
def probePattern : InputPattern :=
  { name := "probe", priority := 10, description := "probe",
    matchFn := fun s => some [s], isComplete := none, parse := fun _ => none }

/-- A block-registry state with colliding dedup keys: the pairs
("a", "b:c") and ("a:b", "c") both produce the key string "a:b:c". -/
def collidingWs : WorkspaceModel :=
  { blocks := [⟨"a".toList, some "b:c".toList⟩,
               ⟨"a:b".toList, some "c".toList⟩,
               ⟨"x".toList, some "c".toList⟩],
    varNames := [], scopeVars := none, procedures := [] }

/-- A workspace state whose emitted block types contain no colon. -/
def colonFreeWs : WorkspaceModel :=
  { blocks := [⟨"a".toList, some "c".toList⟩, ⟨"x".toList, some "c".toList⟩],
    varNames := ["v".toList], scopeVars := none, procedures := [] }

/-- A factory environment in which instantiating the block type "bad"
throws and everything else succeeds, with all fields/inputs/outputs
available and no field-setting or connect throws. -/
def envThrowsBad : FactoryEnv :=
  { throws := fun t => t == "bad", hasField := fun _ _ => true,
    setValueThrows := fun _ _ _ => false,
    hasInput := fun _ _ => true, hasOutput := fun _ => true,
    connectThrows := fun _ _ _ => false }

/-- A root instruction whose only child instantiates the throwing type. -/
def instrWithBadChild : BlockInstr :=
  .mk "good" [("F", "v".toList)] [("VALUE", .mk "bad" [] [])]

/-- An unrestricted, unconnected connection. -/
def freeConn : BConn := { chk := none, connected := false }

/-- A selected target block with a free next-statement socket. -/
def witnessTarget : CBlock :=
  { idn := 0, prevConn := none, nextConn := some freeConn, outConn := none,
    inputs := [⟨"V", InputKind.value, some freeConn⟩] }

/-- A new block with both a free output plug and a free previous-statement
plug. -/
def witnessNewBlock : CBlock :=
  { idn := 1, prevConn := some freeConn, nextConn := some freeConn,
    outConn := some freeConn, inputs := [] }

/-
Helper lemmas: character classes, trimming, spans, sorting, dedup.
-/

theorem not_space_of_digit {c : Char} (h : isDigitChar c = true) : isJsSpace c = false := by
  simp only [isDigitChar, Bool.and_eq_true, decide_eq_true_eq] at h
  simp only [isJsSpace, Bool.or_eq_false_iff, Bool.and_eq_false_iff,
    decide_eq_false_iff_not]
  omega

theorem not_term_of_digit {c : Char} (h : isDigitChar c = true) : isLineTerminator c = false := by
  simp only [isDigitChar, Bool.and_eq_true, decide_eq_true_eq] at h
  simp only [isLineTerminator, Bool.or_eq_false_iff, decide_eq_false_iff_not]
  omega

theorem not_space_of_word {c : Char} (h : isWordChar c = true) : isJsSpace c = false := by
  simp only [isWordChar, Bool.or_eq_true, Bool.and_eq_true, decide_eq_true_eq] at h
  simp only [isJsSpace, Bool.or_eq_false_iff, Bool.and_eq_false_iff,
    decide_eq_false_iff_not]
  omega

theorem not_term_of_word {c : Char} (h : isWordChar c = true) : isLineTerminator c = false := by
  simp only [isWordChar, Bool.or_eq_true, Bool.and_eq_true, decide_eq_true_eq] at h
  simp only [isLineTerminator, Bool.or_eq_false_iff, decide_eq_false_iff_not]
  omega

theorem not_space_of_quote {c : Char} (h : isQuote c = true) : isJsSpace c = false := by
  simp only [isQuote, Bool.or_eq_true, decide_eq_true_eq] at h
  simp only [isJsSpace, Bool.or_eq_false_iff, Bool.and_eq_false_iff,
    decide_eq_false_iff_not]
  omega

theorem not_term_of_quote {c : Char} (h : isQuote c = true) : isLineTerminator c = false := by
  simp only [isQuote, Bool.or_eq_true, decide_eq_true_eq] at h
  simp only [isLineTerminator, Bool.or_eq_false_iff, decide_eq_false_iff_not]
  omega

/-- A character whose lower-cased form is a word character is neither
whitespace nor a line terminator. -/
theorem not_space_term_of_lower_word {c : Char} (h : isWordChar (toLowerChar c) = true) :
    isJsSpace c = false ∧ isLineTerminator c = false := by
  unfold toLowerChar at h
  split at h
  · rename_i hu
    constructor
    · simp only [isJsSpace, Bool.or_eq_false_iff, Bool.and_eq_false_iff,
        decide_eq_false_iff_not]
      omega
    · simp only [isLineTerminator, Bool.or_eq_false_iff, decide_eq_false_iff_not]
      omega
  · exact ⟨not_space_of_word h, not_term_of_word h⟩

theorem dropWhile_eq_self_of_head {p : Char → Bool} {l : Str}
    (h : ∀ c, l.head? = some c → p c = false) : l.dropWhile p = l := by
  cases l with
  | nil => rfl
  | cons a t =>
    have := h a rfl
    simp [List.dropWhile_cons, this]

theorem jsTrim_eq_self_of_ends {s : Str}
    (h1 : ∀ c, s.head? = some c → isJsSpace c = false)
    (h2 : ∀ c, s.getLast? = some c → isJsSpace c = false) : jsTrim s = s := by
  unfold jsTrim
  rw [dropWhile_eq_self_of_head h1]
  rw [dropWhile_eq_self_of_head (by
    intro c hc
    rw [List.head?_reverse] at hc
    exact h2 c hc)]
  exact List.reverse_reverse s

theorem jsTrim_eq_self_of_all {s : Str}
    (h : ∀ c ∈ s, isJsSpace c = false) : jsTrim s = s := by
  apply jsTrim_eq_self_of_ends
  · intro c hc
    exact h c (by cases s with
      | nil => simp at hc
      | cons a t =>
        simp only [List.head?_cons, Option.some.injEq] at hc
        simp [hc.symm])
  · intro c hc
    have hcm : c ∈ s.getLast? := Option.mem_def.mpr hc
    obtain ⟨hne, heq⟩ := List.mem_getLast?_eq_getLast hcm
    exact h c (heq ▸ List.getLast_mem hne)

theorem takeWhile_append_cons {p : Char → Bool} (l1 : Str) (c : Char) (l2 : Str)
    (h1 : ∀ x ∈ l1, p x = true) (h2 : p c = false) :
    (l1 ++ c :: l2).takeWhile p = l1 ∧ (l1 ++ c :: l2).dropWhile p = c :: l2 := by
  induction l1 with
  | nil => simp [List.takeWhile_cons, List.dropWhile_cons, h2]
  | cons a t ih =>
    have ha := h1 a (by simp)
    have iht := ih (fun x hx => h1 x (by simp [hx]))
    constructor
    · simp [List.cons_append, List.takeWhile_cons, ha, iht.1]
    · simp [List.cons_append, List.dropWhile_cons, ha, iht.2]

theorem mem_insertLe {α : Type} (le : α → α → Bool) (x a : α) (l : List α) :
    a ∈ insertLe le x l ↔ a = x ∨ a ∈ l := by
  induction l with
  | nil => simp [insertLe]
  | cons y ys ih =>
    by_cases h : le x y = true
    · simp [insertLe, h]
    · simp only [insertLe, h]
      simp only [Bool.false_eq_true, if_false, List.mem_cons, ih]
      tauto

theorem mem_stableSort {α : Type} (le : α → α → Bool) (a : α) (l : List α) :
    a ∈ stableSort le l ↔ a ∈ l := by
  induction l with
  | nil => simp [stableSort]
  | cons x xs ih =>
    simp [stableSort, mem_insertLe, ih]

theorem dedupeGo_subset : ∀ (l : List AutoOption) (seen : List Str) (o : AutoOption),
    o ∈ dedupeGo seen l → o ∈ l := by
  intro l
  induction l with
  | nil => intro seen o h; simp [dedupeGo] at h
  | cons x xs ih =>
    intro seen o h
    by_cases hx : optionKey x ∈ seen
    · simp only [dedupeGo, if_pos hx] at h
      exact List.mem_cons_of_mem x (ih seen o h)
    · simp only [dedupeGo, if_neg hx, List.mem_cons] at h
      rcases h with h | h
      · simp [h]
      · exact List.mem_cons_of_mem x (ih _ o h)

theorem dedupeGo_key_not_seen : ∀ (l : List AutoOption) (seen : List Str) (o : AutoOption),
    o ∈ dedupeGo seen l → optionKey o ∉ seen := by
  intro l
  induction l with
  | nil => intro seen o h; simp [dedupeGo] at h
  | cons x xs ih =>
    intro seen o h
    by_cases hx : optionKey x ∈ seen
    · simp only [dedupeGo, if_pos hx] at h
      exact ih seen o h
    · simp only [dedupeGo, if_neg hx, List.mem_cons] at h
      rcases h with h | h
      · simpa [h] using hx
      · have := ih _ o h
        intro hc
        exact this (by simp [hc])

theorem dedupeGo_key_pairwise : ∀ (l : List AutoOption) (seen : List Str),
    (dedupeGo seen l).Pairwise (fun a b => optionKey a ≠ optionKey b) := by
  intro l
  induction l with
  | nil => intro seen; simp [dedupeGo]
  | cons x xs ih =>
    intro seen
    by_cases hx : optionKey x ∈ seen
    · simpa [dedupeGo, hx] using ih seen
    · simp only [dedupeGo, if_neg hx]
      refine List.Pairwise.cons ?_ (ih _)
      intro b hb
      have := dedupeGo_key_not_seen xs (optionKey x :: seen) b hb
      intro hc
      exact this (by simp [hc])

theorem mem_dedupeGo_of_inj : ∀ (l : List AutoOption) (seen : List Str),
    (∀ o1 ∈ l, ∀ o2 ∈ l, optionKey o1 = optionKey o2 → o1 = o2) →
    ∀ o ∈ l, optionKey o ∉ seen → o ∈ dedupeGo seen l := by
  intro l
  induction l with
  | nil => intro seen _ o h; simp at h
  | cons x xs ih =>
    intro seen hinj o ho hs
    rcases List.mem_cons.mp ho with rfl | hoxs
    · simp [dedupeGo, hs]
    · by_cases hx : optionKey x ∈ seen
      · simp only [dedupeGo, if_pos hx]
        exact ih seen
          (fun o1 h1 o2 h2 => hinj o1 (by simp [h1]) o2 (by simp [h2])) o hoxs hs
      · simp only [dedupeGo, if_neg hx]
        by_cases hk : optionKey o = optionKey x
        · have : o = x := hinj o ho x (by simp) hk
          simp [this]
        · refine List.mem_cons_of_mem x ?_
          refine ih _ (fun o1 h1 o2 h2 => hinj o1 (by simp [h1]) o2 (by simp [h2]))
            o hoxs ?_
          simp only [List.mem_cons]
          push_neg
          exact ⟨hk, hs⟩

theorem key_colon_inj : ∀ (a : Str) (b c d : Str), ':' ∉ a → ':' ∉ b →
    a ++ ':' :: c = b ++ ':' :: d → a = b ∧ c = d := by
  intro a
  induction a with
  | nil =>
    intro b c d _ hb h
    cases b with
    | nil => simpa using h
    | cons y ys =>
      simp only [List.nil_append, List.cons_append, List.cons.injEq] at h
      exact absurd (List.mem_cons.mpr (Or.inl h.1)) hb
  | cons x xs ih =>
    intro b c d ha hb h
    cases b with
    | nil =>
      simp only [List.cons_append, List.nil_append, List.cons.injEq] at h
      exact absurd (List.mem_cons.mpr (Or.inl h.1.symm)) ha
    | cons y ys =>
      simp only [List.cons_append, List.cons.injEq] at h
      have := ih ys c d (fun hc => ha (List.mem_cons.mpr (Or.inr hc)))
        (fun hc => hb (List.mem_cons.mpr (Or.inr hc))) h.2
      exact ⟨by rw [h.1, this.1], this.2⟩

/-
Claim C8.
-/

/-- Claim C8: for every pair of (possibly absent) connections, the
type-compatibility check returns true iff both connections are present and
either one declares no type restriction (null check list) or their
restriction lists intersect; an absent connection makes the check false. -/
theorem claim8_type_compatibility (c1 c2 : Option BConn) :
    areTypesCompatible c1 c2 = true ↔
      ∃ a b, c1 = some a ∧ c2 = some b ∧
        (a.chk = none ∨ b.chk = none ∨
         ∃ ty l1 l2, a.chk = some l1 ∧ b.chk = some l2 ∧ ty ∈ l1 ∧ ty ∈ l2) := by
  cases c1 with
  | none => simp [areTypesCompatible]
  | some a =>
    cases c2 with
    | none => simp [areTypesCompatible]
    | some b =>
      cases h1 : a.chk with
      | none => simp [areTypesCompatible, h1]
      | some l1 =>
        cases h2 : b.chk with
        | none => simp [areTypesCompatible, h1, h2]
        | some l2 =>
          constructor
          · intro h
            simp only [areTypesCompatible, h1, h2, List.any_eq_true] at h
            obtain ⟨ty, hty, hc⟩ := h
            exact ⟨a, b, rfl, rfl, Or.inr (Or.inr ⟨ty, l1, l2, h1, h2, hty, by simpa using hc⟩)⟩
          · rintro ⟨a2, b2, ha2, hb2, hcase⟩
            obtain rfl : a2 = a := by injection ha2 with hh; exact hh.symm
            obtain rfl : b2 = b := by injection hb2 with hh; exact hh.symm
            rcases hcase with hc | hc | hc
            · simp [h1] at hc
            · simp [h2] at hc
            · obtain ⟨ty, la, lb, hla, hlb, hta, htb⟩ := hc
              rw [h1] at hla
              rw [h2] at hlb
              injection hla with hla
              injection hlb with hlb
              subst hla
              subst hlb
              simp only [areTypesCompatible, h1, h2, List.any_eq_true]
              exact ⟨ty, hta, by simpa using htb⟩

/-
Claim C6.
-/

theorem trackerRun_true_of_no_reload (evts : List TrackerEvent)
    (h : ∀ e ∈ evts, e ≠ TrackerEvent.markReloaded) : trackerRun evts true = true := by
  induction evts with
  | nil => rfl
  | cons e es ih =>
    cases e with
    | invalidate r =>
      simpa [trackerRun, trackerStep] using ih (fun x hx => h x (by simp [hx]))
    | markReloaded => exact absurd rfl (h _ (by simp))

/-- Claim C6: after invalidate(reason) the dirty flag is true and stays true
across any further sequence of invalidate calls until markReloaded, which
clears it; invalidate is idempotent. -/
theorem claim6_tracker_invariant (r : String) (b : Bool) (evts : List TrackerEvent)
    (h : ∀ e ∈ evts, e ≠ TrackerEvent.markReloaded) :
    trackerRun evts (trackerStep (TrackerEvent.invalidate r) b) = true ∧
    (∀ (b2 : Bool) (r1 r2 : String),
      trackerStep (TrackerEvent.invalidate r1) (trackerStep (TrackerEvent.invalidate r2) b2) =
        trackerStep (TrackerEvent.invalidate r2) b2) ∧
    (∀ b3 : Bool, trackerStep TrackerEvent.markReloaded b3 = false) := by
  refine ⟨?_, ?_, ?_⟩
  · have hb : trackerStep (TrackerEvent.invalidate r) b = true := by
      cases b <;> rfl
    rw [hb]
    exact trackerRun_true_of_no_reload evts h
  · intro b2 r1 r2
    cases b2 <;> rfl
  · intro b3
    rfl

/-- Witness for claim C6 at a concrete run: flag stays dirty across two more
invalidations. -/
theorem claim6_tracker_invariant_witness :
    trackerRun [TrackerEvent.invalidate "a", TrackerEvent.invalidate "b"]
      (trackerStep (TrackerEvent.invalidate "r") false) = true ∧
    (∀ (b2 : Bool) (r1 r2 : String),
      trackerStep (TrackerEvent.invalidate r1) (trackerStep (TrackerEvent.invalidate r2) b2) =
        trackerStep (TrackerEvent.invalidate r2) b2) ∧
    (∀ b3 : Bool, trackerStep TrackerEvent.markReloaded b3 = false) :=
  claim6_tracker_invariant "r" false
    [TrackerEvent.invalidate "a", TrackerEvent.invalidate "b"] (by decide)

/-
Claim C4.
-/

/-- Counterexample for claim C4: instantiating the child node "bad" throws,
yet createBlockFromInstruction for the root returns a (partially-built) root
block with the failed child skipped — not nothing. -/
theorem claim4_counterexample :
    envThrowsBad.throws "bad" = true ∧
    createBlockFromInstruction envThrowsBad (BlockInstr.mk "bad" [] []) = none ∧
    createBlockFromInstruction envThrowsBad instrWithBadChild =
      some (BBlock.mk "good" [("F", "v".toList)] []) := by
  refine ⟨rfl, ?_, ?_⟩
  · simp [createBlockFromInstruction, envThrowsBad]
  · simp [instrWithBadChild, createBlockFromInstruction, createChildBlocks, envThrowsBad]

/-- A child whose own materialization fails (undefined from the child's
catch) is simply skipped by the parent's loop. -/
theorem createChildBlocks_skip_failed (env : FactoryEnv) (bt : String)
    (nm : String) (ci : BlockInstr) (rest : List (String × BlockInstr))
    (h : createBlockFromInstruction env ci = none) :
    createChildBlocks env bt ((nm, ci) :: rest) = createChildBlocks env bt rest := by
  simp [createChildBlocks, h]

/-- The parent's loop aborts (a root-frame throw) only at an attachment
whose connect throws, for a successfully materialized child. -/
theorem createChildBlocks_none_cause (env : FactoryEnv) (bt : String) :
    ∀ cs : List (String × BlockInstr), createChildBlocks env bt cs = none →
      ∃ nc ∈ cs, ∃ cb, createBlockFromInstruction env nc.2 = some cb ∧
        env.hasInput bt nc.1 = true ∧ env.hasOutput cb.btype = true ∧
        env.connectThrows bt nc.1 cb.btype = true := by
  intro cs
  induction cs with
  | nil => intro h; simp [createChildBlocks] at h
  | cons nc rest ih =>
    intro h
    obtain ⟨nm, ci⟩ := nc
    cases hcb : createBlockFromInstruction env ci with
    | none =>
      rw [createChildBlocks_skip_failed env bt nm ci rest hcb] at h
      obtain ⟨x, hx, hrest⟩ := ih h
      exact ⟨x, List.mem_cons_of_mem _ hx, hrest⟩
    | some cb =>
      simp only [createChildBlocks, hcb] at h
      by_cases hio : (env.hasInput bt nm && env.hasOutput cb.btype) = true
      · rw [if_pos hio] at h
        obtain ⟨hin, hout⟩ : env.hasInput bt nm = true ∧ env.hasOutput cb.btype = true := by
          simpa using hio
        by_cases hct : env.connectThrows bt nm cb.btype = true
        · exact ⟨(nm, ci), by simp, cb, hcb, hin, hout, hct⟩
        · rw [if_neg hct] at h
          cases hrec : createChildBlocks env bt rest with
          | none =>
            obtain ⟨x, hx, hrest⟩ := ih hrec
            exact ⟨x, List.mem_cons_of_mem _ hx, hrest⟩
          | some l =>
            rw [hrec] at h
            cases h
      · rw [if_neg hio] at h
        obtain ⟨x, hx, hrest⟩ := ih h
        exact ⟨x, List.mem_cons_of_mem _ hx, hrest⟩

/-- Claim C4 as amended: the root call returns nothing when its own
instantiation throws, and it can return nothing only because of a throw in
its OWN frame — its instantiation, setting one of its fields, or a throwing
connect while attaching a materialized child; a throw while materializing a
child node is caught inside the child's own call, and such a failed child is
simply skipped, the root returning the same (partially-built) block as if
that child were absent. -/
theorem claim4_amended (env : FactoryEnv) (i : BlockInstr) :
    (env.throws i.btype = true → createBlockFromInstruction env i = none) ∧
    (createBlockFromInstruction env i = none →
      env.throws i.btype = true ∨
      (∃ fv ∈ i.fieldVals, env.hasField i.btype fv.1 = true ∧
        env.setValueThrows i.btype fv.1 fv.2 = true) ∨
      (∃ nc ∈ i.childList, ∃ cb, createBlockFromInstruction env nc.2 = some cb ∧
        env.hasInput i.btype nc.1 = true ∧ env.hasOutput cb.btype = true ∧
        env.connectThrows i.btype nc.1 cb.btype = true)) ∧
    (∀ (bt : String) (fvs : List (String × Str)) (nm : String) (ci : BlockInstr)
      (rest : List (String × BlockInstr)),
      createBlockFromInstruction env ci = none →
      createBlockFromInstruction env (BlockInstr.mk bt fvs ((nm, ci) :: rest)) =
        createBlockFromInstruction env (BlockInstr.mk bt fvs rest)) := by
  refine ⟨?_, ?_, ?_⟩
  · intro h
    cases i with
    | mk bt fvs cs => simp only [createBlockFromInstruction, BlockInstr.btype] at h ⊢; simp [h]
  · intro h
    cases i with
    | mk bt fvs cs =>
      simp only [createBlockFromInstruction] at h
      by_cases ht : env.throws bt = true
      · exact Or.inl ht
      · rw [if_neg (by simpa using ht)] at h
        by_cases hf : (fvs.any fun fv =>
            env.hasField bt fv.1 && env.setValueThrows bt fv.1 fv.2) = true
        · refine Or.inr (Or.inl ?_)
          obtain ⟨fv, hmem, hcond⟩ := List.any_eq_true.mp hf
          obtain ⟨h1, h2⟩ : env.hasField bt fv.1 = true ∧
              env.setValueThrows bt fv.1 fv.2 = true := by
            simpa using hcond
          exact ⟨fv, hmem, h1, h2⟩
        · rw [if_neg (by simpa using hf)] at h
          cases hcc : createChildBlocks env bt cs with
          | none =>
            exact Or.inr (Or.inr (createChildBlocks_none_cause env bt cs hcc))
          | some l =>
            rw [hcc] at h
            cases h
  · intro bt fvs nm ci rest h
    simp only [createBlockFromInstruction]
    rw [createChildBlocks_skip_failed env bt nm ci rest h]

/-- Witness for claim C4 as amended: the throwing leaf fails on its own, and
the root with that failing child materializes to the same block as the root
without it. -/
theorem claim4_amended_witness :
    createBlockFromInstruction envThrowsBad (BlockInstr.mk "bad" [] []) = none ∧
    createBlockFromInstruction envThrowsBad
        (BlockInstr.mk "good" [("F", "v".toList)]
          [("VALUE", BlockInstr.mk "bad" [] [])]) =
      createBlockFromInstruction envThrowsBad
        (BlockInstr.mk "good" [("F", "v".toList)] []) :=
  ⟨(claim4_amended envThrowsBad (BlockInstr.mk "bad" [] [])).1 rfl,
   (claim4_amended envThrowsBad (BlockInstr.mk "bad" [] [])).2.2
     "good" [("F", "v".toList)] "VALUE" (BlockInstr.mk "bad" [] []) []
     ((claim4_amended envThrowsBad (BlockInstr.mk "bad" [] [])).1 rfl)⟩

/-
Claim C9.
-/

/-- Counterexample for claim C9: with a configuration carrying a priority
override for "number", registration changes the registered number pattern's
priority field from 100 to 50 (the source mutates the pattern object in
place). -/
theorem claim9_counterexample :
    (registerBuiltinPatterns cfgOverrideNumber [] [numberPatternE]).map
      InputPattern.priority = [50] ∧
    numberPatternE.priority = 100 := by
  constructor
  · rfl
  · rfl

/-- Claim C9 as amended: a pattern whose name has no configured priority
override (or an override of 0, which is falsy) is registered unchanged — the
override step is the identity on it and the registry holds the original
object; only a truthy override mutates the pattern's priority. -/
theorem claim9_amended (cfg : PatternConfig) (existing pats : List InputPattern)
    (p : InputPattern) (hp : p ∈ pats)
    (hov : lookupPriority cfg p.name = none ∨ lookupPriority cfg p.name = some 0)
    (hen : isPatternEnabled cfg p = true) :
    applyPriorityOverride cfg p = p ∧
    p ∈ registerBuiltinPatterns cfg existing pats := by
  have hid : applyPriorityOverride cfg p = p := by
    rcases hov with h | h
    · simp [applyPriorityOverride, h]
    · simp [applyPriorityOverride, h]
  refine ⟨hid, ?_⟩
  unfold registerBuiltinPatterns sortPatterns sortByKeyDesc
  rw [mem_stableSort]
  refine List.mem_append_right _ ?_
  exact List.mem_map.mpr ⟨p, List.mem_filter.mpr ⟨hp, hen⟩, hid⟩

/-- Witness for claim C9 as amended: under the default configuration (no
overrides) the number pattern is registered unchanged. -/
theorem claim9_amended_witness :
    applyPriorityOverride defaultPatternConfig numberPatternE = numberPatternE ∧
    numberPatternE ∈ registerBuiltinPatterns defaultPatternConfig [] builtinPatternList :=
  claim9_amended defaultPatternConfig [] builtinPatternList numberPatternE
    (by simp [builtinPatternList]) (Or.inl rfl) rfl

/-
Claim C10.
-/

/-- Counterexample for claim C10: the one-character string consisting of a
double quote has a quote as both its first and its last character, yet the
text pattern does not match it (the regex needs an opening and a separate
closing quote). -/
theorem claim10_counterexample :
    isQuote '"' = true ∧ textMatchFn ['"'] = none := by
  exact ⟨rfl, rfl⟩

/-- Claim C10 as amended: for every string of length at least two whose first
and last characters are (possibly different) quotes and whose interior
contains no line terminator, the text pattern matches the whole string and
parseInput yields a text instruction whose TEXT field is the interior. -/
theorem claim10_amended (s : Str) (h2 : 2 ≤ s.length)
    (hq1 : isQuote (s.headD ' ') = true)
    (hq2 : isQuote (s.getLastD ' ') = true)
    (hmid : ((s.drop 1).dropLast).all (fun c => !isLineTerminator c) = true) :
    textMatchFn s = some [s, (s.drop 1).dropLast] ∧
    textParse [s, (s.drop 1).dropLast] =
      some (BlockInstr.mk "text" [("TEXT", (s.drop 1).dropLast)] []) := by
  cases s with
  | nil => simp at h2
  | cons c rest =>
    have hrest : rest ≠ [] := by
      cases rest with
      | nil => simp at h2
      | cons _ _ => simp
    obtain ⟨d, midRev, hrev⟩ : ∃ d midRev, rest.reverse = d :: midRev := by
      cases hr : rest.reverse with
      | nil => exact absurd (by simpa using congrArg List.reverse hr) hrest
      | cons d mr => exact ⟨d, mr, rfl⟩
    have hrestEq : rest = midRev.reverse ++ [d] := by
      have := congrArg List.reverse hrev
      simpa using this
    have hdrop : (c :: rest).drop 1 = rest := rfl
    have hdl : rest.dropLast = midRev.reverse := by
      rw [hrestEq]
      exact List.dropLast_concat ..
    have hq1c : isQuote c = true := by simpa using hq1
    have hq2d : isQuote d = true := by
      have hLD : (c :: rest).getLastD ' ' = d := by
        rw [List.getLastD_eq_getLast?, hrestEq]
        rw [show c :: (midRev.reverse ++ [d]) = (c :: midRev.reverse) ++ [d] from rfl]
        rw [List.getLast?_concat]
        rfl
      rwa [hLD] at hq2
    have hmid2 : midRev.reverse.all (fun x => !isLineTerminator x) = true := by
      rw [hdrop, hdl] at hmid
      exact hmid
    constructor
    · simp only [textMatchFn, hq1c, if_pos, hrev, hq2d, hmid2, Bool.and_self]
      simp [hdrop, hdl]
    · simp [textParse]

/-- Witness for claim C10 as amended, at the mixed-quote input "abc' . -/
theorem claim10_amended_witness :
    textMatchFn ['"', 'a', 'b', 'c', '\''] =
      some [['"', 'a', 'b', 'c', '\''], ['a', 'b', 'c']] ∧
    textParse [['"', 'a', 'b', 'c', '\''], ['a', 'b', 'c']] =
      some (BlockInstr.mk "text" [("TEXT", ['a', 'b', 'c'])] []) :=
  claim10_amended ['"', 'a', 'b', 'c', '\''] (by decide) (by decide) (by decide) (by decide)

/-
Claim C5.
-/

/-- Counterexample for claim C5: the dedup key is the single string
blockType + ":" + displayText, so the distinct pairs ("a", "b:c") and
("a:b", "c") collide on the key "a:b:c".  In collidingWs the sources emit
("a:b", "c") and ("x", "c"), which share display text "c" with different
block types, yet the returned list retains only ("x", "c") — ("a:b", "c")
was dropped by the collision with ("a", "b:c"). -/
theorem claim5_counterexample :
    (⟨"a:b".toList, "c".toList⟩ : AutoOption) ∈ rawOptions collidingWs ∧
    (⟨"x".toList, "c".toList⟩ : AutoOption) ∈ rawOptions collidingWs ∧
    (⟨"a:b".toList, "c".toList⟩ : AutoOption) ∉ generateOptions collidingWs ∧
    (⟨"x".toList, "c".toList⟩ : AutoOption) ∈ generateOptions collidingWs := by
  refine ⟨?_, ?_, ?_, ?_⟩ <;> decide

/-- Claim C5 as amended: the returned option list never contains two options
with the same (blockType, displayText) pair; and provided no emitted option's
blockType contains the character ':' (so that the concatenated dedup keys
cannot collide across distinct pairs), every emitted option — in particular
each of two options sharing displayText but differing in blockType — is
retained in the returned list. -/
theorem claim5_amended (ws : WorkspaceModel) :
    (generateOptions ws).Nodup ∧
    ((∀ o ∈ rawOptions ws, ':' ∉ o.blockType) →
      ∀ o ∈ rawOptions ws, o ∈ generateOptions ws) := by
  constructor
  · have hp := dedupeGo_key_pairwise (rawOptions ws) []
    exact List.Pairwise.imp (fun h heq => h (by rw [heq])) hp
  · intro hcol o ho
    refine mem_dedupeGo_of_inj (rawOptions ws) [] ?_ o ho (by simp)
    intro o1 h1 o2 h2 hk
    have e := key_colon_inj o1.blockType o2.blockType o1.displayText o2.displayText
      (hcol o1 h1) (hcol o2 h2) hk
    cases o1
    cases o2
    simp only at e
    simp [e.1, e.2]

/-- Witness for claim C5 as amended at a colon-free workspace: the generated
list is duplicate-free and every raw option survives deduplication. -/
theorem claim5_amended_witness :
    (generateOptions colonFreeWs).Nodup ∧
    (∀ o ∈ rawOptions colonFreeWs, o ∈ generateOptions colonFreeWs) :=
  ⟨(claim5_amended colonFreeWs).1, (claim5_amended colonFreeWs).2 (by decide)⟩

/-
Claim C7.
-/

/-- Claim C7: the default strategies are tried per target in the fixed
descending-priority order StatementSequence (90), ValueInput (80),
StatementInsertion (70), Wrapper (60); the selected block is tried before
all nearby blocks, and the first successful connect ends the whole search.
In particular, for a new block with both a free output plug and a free
previous-statement plug and a selected target with a free type-compatible
next-statement socket, the connection made is the statement-sequencing one
(targeting that next socket), not a value-input one — whatever other nearby
blocks exist. -/
theorem claim7_connection_priority (n sel : CBlock) (nearby : List CBlock)
    (pc nc oc : BConn)
    (hprev : n.prevConn = some pc)
    (hpfree : pc.connected = false)
    (hout : n.outConn = some oc)
    (hofree : oc.connected = false)
    (hnext : sel.nextConn = some nc)
    (hfree : nc.connected = false)
    (hcompat : areTypesCompatible (some pc) (some nc) = true) :
    connectionSearch n ⟨some sel, nearby⟩ =
      some { success := true, connectionType := some "statement_sequence",
             targetConnection := some nc, reason := none } ∧
    sortedDefaultStrategies.map (fun s => (s.sname, s.priority)) =
      [("StatementSequence", 90), ("ValueInput", 80),
       ("StatementInsertion", 70), ("Wrapper", 60)] := by
  have hsorted : sortedDefaultStrategies =
      [statementSequenceConnector, valueInputConnector,
       statementInsertionConnector, wrapperConnector] := rfl
  have hcan : seqCanConnect n sel = true := by
    simp [seqCanConnect, hprev, hnext, hfree, hcompat]
  have hconn : seqConnect n sel =
      { success := true, connectionType := some "statement_sequence",
        targetConnection := some nc, reason := none } := by
    simp [seqConnect, hcan, hnext]
  constructor
  · have htry : tryStrategiesOnTarget n sel sortedDefaultStrategies =
        some { success := true, connectionType := some "statement_sequence",
               targetConnection := some nc, reason := none } := by
      rw [hsorted]
      simp [tryStrategiesOnTarget, statementSequenceConnector, hcan, hconn]
    obtain ⟨rest, hgp⟩ : ∃ rest,
        getPriorizedTargetBlocks sortedDefaultStrategies n ⟨some sel, nearby⟩ =
          sel :: rest := by
      refine ⟨dedupFirstGo [sel]
        (stableSort (fun a b => decide (smartCompare sortedDefaultStrategies n a b ≤ 0))
          (List.filter (fun b => !decide (b = sel)) nearby)), ?_⟩
      unfold getPriorizedTargetBlocks dedupFirst
      simp [dedupFirstGo]
    unfold connectionSearch
    rw [hgp]
    simp [findAndMakeConnection, htry]
  · rw [hsorted]
    rfl

/-- Witness for claim C7 at concrete blocks: the selected target's free next
socket wins via statement sequencing even though a free compatible value
input is also available on the target. -/
theorem claim7_connection_priority_witness :
    connectionSearch witnessNewBlock ⟨some witnessTarget, []⟩ =
      some { success := true, connectionType := some "statement_sequence",
             targetConnection := some freeConn, reason := none } ∧
    sortedDefaultStrategies.map (fun s => (s.sname, s.priority)) =
      [("StatementSequence", 90), ("ValueInput", 80),
       ("StatementInsertion", 70), ("Wrapper", 60)] :=
  claim7_connection_priority witnessNewBlock witnessTarget [] freeConn freeConn freeConn
    rfl rfl rfl rfl rfl rfl rfl

/-
Claim C1.
-/

theorem matchResults_cons (input : Str) (p : InputPattern) (ps : List InputPattern) :
    matchResults input (p :: ps) =
      (match p.matchFn input with
       | none => matchResults input ps
       | some m => ⟨p, m, calculateConfidence p m input⟩ :: matchResults input ps) := by
  cases h : p.matchFn input <;> simp [matchResults, h]

theorem calculateConfidence_formula (p : InputPattern) (m : List Str) (input : Str) :
    calculateConfidence p m input =
      min ((0.8 : ℚ) + (if m.getD 0 [] = jsTrim input then (0.15 : ℚ) else 0) +
           (if isCompleteHolds p input then (0.05 : ℚ) else 0) + p.priority / 1000) 1 := by
  unfold calculateConfidence
  rw [show ∀ a : ℚ, jsMin a 1 = min a 1 from fun a => by rw [jsMin, min_def]]
  by_cases h1 : m.getD 0 [] = jsTrim input <;>
    by_cases h2 : isCompleteHolds p input = true <;>
      simp only [h1, h2, if_true, if_false, Bool.not_eq_true, if_pos, if_neg] <;>
        norm_num

theorem detectGo_firstHigh (threshold : ℚ) (input : Str)
    (hthr : threshold ≤ (0.95 : ℚ)) :
    ∀ (ps : List InputPattern) (best : Option DetectionResult) (r : DetectionResult),
    (matchResults input ps).find? (fun x => decide ((0.95 : ℚ) ≤ x.confidence)) = some r →
    detectPatternGo threshold input ps best = some r := by
  intro ps
  induction ps with
  | nil =>
    intro best r h
    simp [matchResults] at h
  | cons p ps ih =>
    intro best r h
    cases hm : p.matchFn input with
    | none =>
      simp only [matchResults_cons, hm] at h
      simp only [detectPatternGo, hm]
      exact ih best r h
    | some m =>
      simp only [matchResults_cons, hm] at h
      by_cases hhigh : (0.95 : ℚ) ≤ calculateConfidence p m input
      · rw [List.find?_cons_of_pos _ (by simp [hhigh])] at h
        injection h with h
        have hth2 : threshold ≤ calculateConfidence p m input := le_trans hthr hhigh
        simp [detectPatternGo, hm, hth2, hhigh, h]
      · rw [List.find?_cons_of_neg _ (by simp [hhigh])] at h
        by_cases hth : threshold ≤ calculateConfidence p m input
        · cases best with
          | none =>
            simp only [detectPatternGo, hm, if_pos hth, if_neg hhigh]
            exact ih _ r h
          | some b =>
            by_cases hb : b.confidence < calculateConfidence p m input
            · simp only [detectPatternGo, hm, if_pos hth, if_neg hhigh, if_pos hb]
              exact ih _ r h
            · simp only [detectPatternGo, hm, if_pos hth, if_neg hhigh, if_neg hb]
              exact ih _ r h
        · simp only [detectPatternGo, hm, if_neg hth]
          exact ih best r h

theorem detectGo_noHigh (threshold : ℚ) (input : Str) :
    ∀ (ps : List InputPattern) (best : Option DetectionResult),
    (matchResults input ps).find? (fun x => decide ((0.95 : ℚ) ≤ x.confidence)) = none →
    (detectPatternGo threshold input ps best = none ↔
      (best = none ∧ thresholdFilter threshold (matchResults input ps) = [])) ∧
    (∀ r, detectPatternGo threshold input ps best = some r →
      (best = some r ∨ r ∈ thresholdFilter threshold (matchResults input ps)) ∧
      (∀ b, best = some b → b.confidence ≤ r.confidence) ∧
      (∀ z ∈ thresholdFilter threshold (matchResults input ps),
        z.confidence ≤ r.confidence)) := by
  intro ps
  induction ps with
  | nil =>
    intro best _
    constructor
    · cases best <;> simp [detectPatternGo, matchResults, thresholdFilter]
    · intro r hr
      cases best with
      | none => simp [detectPatternGo] at hr
      | some b =>
        simp only [detectPatternGo] at hr
        refine ⟨Or.inl hr, ?_, ?_⟩
        · intro b2 hb2
          rw [hr] at hb2
          injection hb2 with hb2
          rw [hb2]
        · intro z hz
          simp [matchResults, thresholdFilter] at hz
  | cons p ps ih =>
    intro best hfind
    cases hm : p.matchFn input with
    | none =>
      simp only [matchResults_cons, hm] at hfind ⊢
      simp only [detectPatternGo, hm]
      exact ih best hfind
    | some m =>
      simp only [matchResults_cons, hm] at hfind ⊢
      have hhead : ¬ ((0.95 : ℚ) ≤ calculateConfidence p m input) := by
        intro hh
        rw [List.find?_cons_of_pos _ (by simp [hh])] at hfind
        cases hfind
      have hfind' : (matchResults input ps).find?
          (fun x => decide ((0.95 : ℚ) ≤ x.confidence)) = none := by
        rw [List.find?_cons_of_neg _ (by simp [hhead])] at hfind
        exact hfind
      by_cases hth : threshold ≤ calculateConfidence p m input
      · have hfilter : thresholdFilter threshold
            ((⟨p, m, calculateConfidence p m input⟩ : DetectionResult) ::
              matchResults input ps) =
            (⟨p, m, calculateConfidence p m input⟩ : DetectionResult) ::
              thresholdFilter threshold (matchResults input ps) := by
          simp [thresholdFilter, List.filter_cons, hth]
        rw [hfilter]
        cases best with
        | none =>
          simp only [detectPatternGo, hm, if_pos hth, if_neg hhead]
          obtain ⟨ihNone, ihSome⟩ := ih (some ⟨p, m, calculateConfidence p m input⟩) hfind'
          constructor
          · rw [ihNone]
            simp
          · intro r hr
            obtain ⟨hmem, hbcond, hzcond⟩ := ihSome r hr
            refine ⟨?_, ?_, ?_⟩
            · rcases hmem with hmem | hmem
              · injection hmem with hmem
                exact Or.inr (List.mem_cons.mpr (Or.inl hmem.symm))
              · exact Or.inr (List.mem_cons_of_mem _ hmem)
            · intro b hb
              cases hb
            · intro z hz
              rcases List.mem_cons.mp hz with rfl | hz
              · exact hbcond _ rfl
              · exact hzcond z hz
        | some b =>
          by_cases hlt : b.confidence < calculateConfidence p m input
          · simp only [detectPatternGo, hm, if_pos hth, if_neg hhead, if_pos hlt]
            obtain ⟨ihNone, ihSome⟩ := ih (some ⟨p, m, calculateConfidence p m input⟩) hfind'
            constructor
            · rw [ihNone]
              simp
            · intro r hr
              obtain ⟨hmem, hbcond, hzcond⟩ := ihSome r hr
              refine ⟨?_, ?_, ?_⟩
              · rcases hmem with hmem | hmem
                · injection hmem with hmem
                  exact Or.inr (List.mem_cons.mpr (Or.inl hmem.symm))
                · exact Or.inr (List.mem_cons_of_mem _ hmem)
              · intro b2 hb2
                injection hb2 with hb2
                have hstep := hbcond ⟨p, m, calculateConfidence p m input⟩ rfl
                calc b2.confidence = b.confidence := by rw [hb2]
                  _ ≤ calculateConfidence p m input := le_of_lt hlt
                  _ ≤ r.confidence := hstep
              · intro z hz
                rcases List.mem_cons.mp hz with rfl | hz
                · exact hbcond _ rfl
                · exact hzcond z hz
          · simp only [detectPatternGo, hm, if_pos hth, if_neg hhead, if_neg hlt]
            obtain ⟨ihNone, ihSome⟩ := ih (some b) hfind'
            constructor
            · rw [ihNone]
              simp
            · intro r hr
              obtain ⟨hmem, hbcond, hzcond⟩ := ihSome r hr
              refine ⟨?_, ?_, ?_⟩
              · rcases hmem with hmem | hmem
                · exact Or.inl hmem
                · exact Or.inr (List.mem_cons_of_mem _ hmem)
              · exact hbcond
              · intro z hz
                rcases List.mem_cons.mp hz with rfl | hz
                · have h1 : calculateConfidence p m input ≤ b.confidence := not_lt.mp hlt
                  exact le_trans h1 (hbcond b rfl)
                · exact hzcond z hz
      · have hfilter : thresholdFilter threshold
            ((⟨p, m, calculateConfidence p m input⟩ : DetectionResult) ::
              matchResults input ps) =
            thresholdFilter threshold (matchResults input ps) := by
          simp [thresholdFilter, List.filter_cons, hth]
        rw [hfilter]
        simp only [detectPatternGo, hm, if_neg hth]
        exact ih best hfind'

/-- Counterexample for claim C1: detectPattern checks the configured
threshold BEFORE the 0.95 short-circuit, so with a configured threshold
above 0.95 (here 0.99) a pattern whose confidence reaches 0.95 (here 0.96)
is not returned at all — the claim's "first pattern whose confidence reaches
0.95" description fails for such configurations. -/
theorem claim1_counterexample :
    calculateConfidence probePattern ["ab".toList] "ab".toList = 0.96 ∧
    (0.95 : ℚ) ≤ calculateConfidence probePattern ["ab".toList] "ab".toList ∧
    probePattern.matchFn "ab".toList = some ["ab".toList] ∧
    detectPattern 0.99 [probePattern] "ab".toList = none := by
  have hstep : calculateConfidence probePattern ["ab".toList] "ab".toList
      = jsMin ((0.8 : ℚ) + 0.15 + 10 / 1000) 1 := rfl
  have hconf : calculateConfidence probePattern ["ab".toList] "ab".toList = 0.96 := by
    rw [hstep, jsMin, if_pos (by norm_num)]
    norm_num
  have hnle : ¬ ((0.99 : ℚ) ≤ calculateConfidence probePattern ["ab".toList] "ab".toList) := by
    rw [hconf]
    norm_num
  refine ⟨hconf, by rw [hconf]; norm_num, rfl, ?_⟩
  have hm : probePattern.matchFn "ab".toList = some ["ab".toList] := rfl
  show detectPatternGo 0.99 "ab".toList [probePattern] none = none
  simp only [detectPatternGo, hm]
  rw [if_neg hnle]

/-- Claim C1 as amended: the confidence of every grammar match is
min(0.8 + 0.15 [full trimmed-input match] + 0.05 [pattern reports complete]
+ priority/1000, 1.0); and whenever the configured threshold is at most 0.95
(in particular the default 0.7), detectPattern returns the first pattern in
its (descending-priority) iteration order whose confidence reaches 0.95;
when no match reaches 0.95 it returns a match of maximal confidence among
those at or above the threshold, and null when there is none.  (For
thresholds above 0.95 the short-circuit additionally requires the threshold,
see the counterexample.) -/
theorem claim1_amended (threshold : ℚ) (ps : List InputPattern) (input : Str)
    (hthr : threshold ≤ (0.95 : ℚ)) :
    (∀ p m, p.matchFn input = some m →
      calculateConfidence p m input =
        min ((0.8 : ℚ) + (if m.getD 0 [] = jsTrim input then (0.15 : ℚ) else 0) +
             (if isCompleteHolds p input then (0.05 : ℚ) else 0) + p.priority / 1000) 1) ∧
    (∀ r, firstHighMatch input ps = some r → detectPattern threshold ps input = some r) ∧
    (firstHighMatch input ps = none →
      (detectPattern threshold ps input = none ↔
        thresholdFilter threshold (matchResults input ps) = []) ∧
      (∀ r, detectPattern threshold ps input = some r →
        r ∈ thresholdFilter threshold (matchResults input ps) ∧
        ∀ z ∈ thresholdFilter threshold (matchResults input ps),
          z.confidence ≤ r.confidence)) := by
  refine ⟨fun p m _ => calculateConfidence_formula p m input, ?_, ?_⟩
  · intro r h
    exact detectGo_firstHigh threshold input hthr ps none r h
  · intro hnone
    obtain ⟨ihNone, ihSome⟩ := detectGo_noHigh threshold input ps none hnone
    constructor
    · rw [detectPattern, ihNone]
      simp
    · intro r hr
      obtain ⟨hmem, _, hzcond⟩ := ihSome r hr
      rcases hmem with hmem | hmem
      · cases hmem
      · exact ⟨hmem, hzcond⟩

/-- Witness for claim C1 as amended, at the default threshold 0.7 and the
default manager pattern list, on the input true. -/
theorem claim1_amended_witness :
    (∀ p m, p.matchFn "true".toList = some m →
      calculateConfidence p m "true".toList =
        min ((0.8 : ℚ) + (if m.getD 0 [] = jsTrim "true".toList then (0.15 : ℚ) else 0) +
             (if isCompleteHolds p "true".toList then (0.05 : ℚ) else 0) + p.priority / 1000) 1) ∧
    (∀ r, firstHighMatch "true".toList defaultManagerPatterns = some r →
      detectPattern 0.7 defaultManagerPatterns "true".toList = some r) ∧
    (firstHighMatch "true".toList defaultManagerPatterns = none →
      (detectPattern 0.7 defaultManagerPatterns "true".toList = none ↔
        thresholdFilter 0.7 (matchResults "true".toList defaultManagerPatterns) = []) ∧
      (∀ r, detectPattern 0.7 defaultManagerPatterns "true".toList = some r →
        r ∈ thresholdFilter 0.7 (matchResults "true".toList defaultManagerPatterns) ∧
        ∀ z ∈ thresholdFilter 0.7 (matchResults "true".toList defaultManagerPatterns),
          z.confidence ≤ r.confidence)) :=
  claim1_amended 0.7 defaultManagerPatterns "true".toList (by norm_num)

/-
Claim C2.
-/

/-- Dissection of a number-grammar match: optional minus sign, then a
nonempty digit/dot string with at most one dot ending in a digit. -/
theorem numberGrammar_dissect {s : Str} (h : numberGrammar s = true) :
    ∃ sign r, (sign = [] ∨ sign = ['-']) ∧ s = sign ++ r ∧ r ≠ [] ∧
      (∀ c ∈ r, isDigitChar c = true ∨ c = '.') ∧
      r.countP (fun c => decide (c = '.')) ≤ 1 ∧
      (∃ d, r.getLast? = some d ∧ isDigitChar d = true) := by
  unfold numberGrammar at h
  cases s with
  | nil =>
    simp at h
  | cons c rest =>
    by_cases hc : c = '-'
    · subst hc
      simp only [if_pos rfl, if_true, ite_true, Bool.and_eq_true, decide_eq_true_eq] at h
      obtain ⟨⟨⟨hne, hall⟩, hcount⟩, hlast⟩ := h
      refine ⟨['-'], rest, Or.inr rfl, rfl, by simpa using hne, ?_, hcount, ?_⟩
      · intro x hx
        have := List.all_eq_true.mp hall x hx
        simpa using this
      · cases hl : rest.getLast? with
        | none => rw [hl] at hlast; cases hlast
        | some d => rw [hl] at hlast; exact ⟨d, rfl, hlast⟩
    · simp only [if_neg hc, if_false, ite_false, Bool.and_eq_true, decide_eq_true_eq] at h
      obtain ⟨⟨⟨hne, hall⟩, hcount⟩, hlast⟩ := h
      refine ⟨[], c :: rest, Or.inl rfl, rfl, by simp, ?_, hcount, ?_⟩
      · intro x hx
        have := List.all_eq_true.mp hall x hx
        simpa using this
      · cases hl : (c :: rest).getLast? with
        | none => rw [hl] at hlast; cases hlast
        | some d => rw [hl] at hlast; exact ⟨d, rfl, hlast⟩

/-- Every character of a number-grammar match is a minus sign, a digit or a
dot — in particular not whitespace and not a line terminator. -/
theorem numberGrammar_no_space {s : Str} (h : numberGrammar s = true) :
    (∀ c ∈ s, isJsSpace c = false) ∧ (∀ c ∈ s, isLineTerminator c = false) := by
  obtain ⟨sign, r, hsign, hs, _, hall, _, _⟩ := numberGrammar_dissect h
  subst hs
  constructor <;> intro c hc <;> rcases List.mem_append.mp hc with hm | hm
  · rcases hsign with rfl | rfl
    · simp at hm
    · rw [List.mem_singleton.mp hm]
      rfl
  · rcases hall c hm with hd | rfl
    · exact not_space_of_digit hd
    · rfl
  · rcases hsign with rfl | rfl
    · simp at hm
    · rw [List.mem_singleton.mp hm]
      rfl
  · rcases hall c hm with hd | rfl
    · exact not_term_of_digit hd
    · rfl

theorem jsTrim_eq_self_of_numberGrammar {s : Str} (h : numberGrammar s = true) :
    jsTrim s = s :=
  jsTrim_eq_self_of_all (numberGrammar_no_space h).1

/-- parseFloat is not NaN on any number-grammar match. -/
theorem parseFloat_not_nan_of_numberGrammar {s : Str} (h : numberGrammar s = true) :
    jsParseFloatIsNaN s = false := by
  obtain ⟨sign, r, hsign, hs, hne, hall, hcount, d, hlast, hd⟩ := numberGrammar_dissect h
  have hspace := (numberGrammar_no_space h).1
  have hdrop : s.dropWhile isJsSpace = s :=
    dropWhile_eq_self_of_head (by
      intro c hc
      cases s with
      | nil => cases hc
      | cons a t =>
        injection hc with hc
        exact hspace c (by rw [← hc]; simp))
  -- the head-analysis of r: it starts with a digit, or with a dot followed
  -- by a digit
  have hr : (∃ c rest, r = c :: rest ∧ isDigitChar c = true) ∨
      (∃ c rest, r = '.' :: c :: rest ∧ isDigitChar c = true) := by
    cases r with
    | nil => exact absurd rfl hne
    | cons c rest =>
      rcases hall c (by simp) with hdig | hdot
      · exact Or.inl ⟨c, rest, rfl, hdig⟩
      · subst hdot
        cases rest with
        | nil =>
          simp only [List.getLast?_singleton, Option.some.injEq] at hlast
          rw [← hlast] at hd
          cases hd
        | cons c2 rest2 =>
          rcases hall c2 (by simp) with hdig | hdot2
          · exact Or.inr ⟨c2, rest2, rfl, hdig⟩
          · exfalso
            subst hdot2
            have : 2 ≤ ('.' :: '.' :: rest2).countP (fun c => decide (c = '.')) := by
              simp [List.countP_cons]
            omega
  unfold jsParseFloatIsNaN
  rw [hdrop]
  rcases hsign with rfl | rfl
  · -- no sign: s = r and its head is a digit or a dot (neither '+' nor '-')
    simp only [List.nil_append] at hs
    subst hs
    rcases hr with ⟨c, rest, hr, hdig⟩ | ⟨c, rest, hr, hdig⟩
    · subst hr
      have hplus : ¬ (c = '+' ∨ c = '-') := by
        simp only [isDigitChar, Bool.and_eq_true, decide_eq_true_eq] at hdig
        rintro (rfl | rfl) <;> simp [charNat] at hdig
      simp only [if_neg hplus, hdig]
      simp
    · subst hr
      have hplus : ¬ (('.' : Char) = '+' ∨ ('.' : Char) = '-') := by decide
      simp only [if_neg hplus]
      simp [hdig]
  · -- sign '-': u is r, whose head is a digit or a dot-then-digit
    subst hs
    simp only [List.singleton_append]
    rcases hr with ⟨c, rest, hr, hdig⟩ | ⟨c, rest, hr, hdig⟩ <;> subst hr
    · simp [hdig]
    · simp [hdig]

/-- Claim C2: with the default configuration, every input matching the number
grammar exactly is detected as the built-in number pattern with confidence
1 (hence at least 0.95), and parseInput yields a math_number instruction
whose NUM field is the matched text verbatim. -/
theorem claim2_number_detection (s : Str) (h : numberGrammar s = true) :
    detectPattern defaultPatternConfig.confidenceThreshold defaultManagerPatterns s =
      some ⟨numberPatternE, [s], 1⟩ ∧
    (0.95 : ℚ) ≤ (1 : ℚ) ∧
    numberPatternE.parse [s] = some (BlockInstr.mk "math_number" [("NUM", s)] []) := by
  have htrim : jsTrim s = s := jsTrim_eq_self_of_numberGrammar h
  have hm : numberPatternE.matchFn s = some [s] := by
    show numberMatchFn s = some [s]
    simp [numberMatchFn, h]
  have hcomplete : isCompleteHolds numberPatternE s = true := by
    show (numberMatchFn (jsTrim s)).isSome = true
    rw [htrim]
    simp [numberMatchFn, h]
  have hconf : calculateConfidence numberPatternE [s] s = 1 := by
    simp only [calculateConfidence]
    rw [if_pos (show [s].getD 0 [] = jsTrim s by rw [htrim]; rfl)]
    rw [if_pos hcomplete]
    have hpri : numberPatternE.priority = 100 := rfl
    rw [hpri, jsMin, if_neg (by norm_num)]
  have hlist : defaultManagerPatterns =
      [numberPatternE, textPatternE, booleanPatternE,
       variableAssignmentPatternE, mathExpressionPatternE] := rfl
  have hth : defaultPatternConfig.confidenceThreshold = 0.7 := rfl
  refine ⟨?_, by norm_num, ?_⟩
  · rw [hlist, hth]
    show detectPatternGo 0.7 s
      (numberPatternE :: [textPatternE, booleanPatternE,
        variableAssignmentPatternE, mathExpressionPatternE]) none =
      some ⟨numberPatternE, [s], 1⟩
    simp only [detectPatternGo, hm, hconf]
    rw [if_pos (by norm_num : (0.7 : ℚ) ≤ 1), if_pos (by norm_num : (0.95 : ℚ) ≤ 1)]
  · show numberParse [s] = some (BlockInstr.mk "math_number" [("NUM", s)] [])
    simp [numberParse, parseFloat_not_nan_of_numberGrammar h]

/-- Witness for claim C2 at the concrete input 42. -/
theorem claim2_number_detection_witness :
    detectPattern defaultPatternConfig.confidenceThreshold defaultManagerPatterns
      "42".toList = some ⟨numberPatternE, ["42".toList], 1⟩ ∧
    (0.95 : ℚ) ≤ (1 : ℚ) ∧
    numberPatternE.parse ["42".toList] =
      some (BlockInstr.mk "math_number" [("NUM", "42".toList)] []) :=
  claim2_number_detection "42".toList (by decide)

/-
Claim C3.
-/

/-- Characters of a boolean-grammar match lower-case to letters of true or
false, hence are word characters after lower-casing. -/
theorem booleanGrammar_chars {lit : Str} (hb : booleanGrammar lit = true) :
    ∀ c ∈ lit, isWordChar (toLowerChar c) = true := by
  intro c hc
  simp only [booleanGrammar, Bool.or_eq_true, decide_eq_true_eq] at hb
  have hword1 : ∀ d ∈ "true".toList, isWordChar d = true := by decide
  have hword2 : ∀ d ∈ "false".toList, isWordChar d = true := by decide
  rcases hb with hb | hb
  · exact hword1 _ (hb ▸ List.mem_map_of_mem toLowerChar hc)
  · exact hword2 _ (hb ▸ List.mem_map_of_mem toLowerChar hc)

theorem booleanGrammar_ne_nil {lit : Str} (hb : booleanGrammar lit = true) : lit ≠ [] := by
  intro h
  subst h
  simp [booleanGrammar] at hb

/-- Dissection of a text-pattern match: an opening quote, an interior free of
line terminators, and a closing quote. -/
theorem textMatchFn_dissect {lit : Str} (h : (textMatchFn lit).isSome = true) :
    ∃ c mid d, lit = c :: (mid ++ [d]) ∧ isQuote c = true ∧ isQuote d = true ∧
      (∀ x ∈ mid, isLineTerminator x = false) ∧ textMatchFn lit = some [lit, mid] := by
  cases lit with
  | nil => simp [textMatchFn] at h
  | cons c rest =>
    by_cases hq : isQuote c = true
    · cases hrev : rest.reverse with
      | nil =>
        have hnone : textMatchFn (c :: rest) = none := by
          simp only [textMatchFn]
          rw [if_pos hq, hrev]
        rw [hnone] at h
        simp at h
      | cons d midRev =>
        by_cases hcond : (isQuote d && midRev.reverse.all fun x => !isLineTerminator x) = true
        · have hres : textMatchFn (c :: rest) = some [c :: rest, midRev.reverse] := by
            simp only [textMatchFn]
            rw [if_pos hq, hrev]
            dsimp only
            rw [if_pos hcond]
          obtain ⟨hqd, hall⟩ : isQuote d = true ∧
              (midRev.reverse.all fun x => !isLineTerminator x) = true := by
            simpa using hcond
          have hrest : rest = midRev.reverse ++ [d] := by
            have := congrArg List.reverse hrev
            simpa using this
          refine ⟨c, midRev.reverse, d, by rw [hrest], hq, hqd, ?_, hres⟩
          intro x hx
          have := List.all_eq_true.mp hall x hx
          simpa using this
        · have hnone : textMatchFn (c :: rest) = none := by
            simp only [textMatchFn]
            rw [if_pos hq, hrev]
            dsimp only
            rw [if_neg hcond]
          rw [hnone] at h
          simp at h
    · have hnone : textMatchFn (c :: rest) = none := by
        simp only [textMatchFn]
        rw [if_neg hq]
      rw [hnone] at h
      simp at h

/-- The literal of a valid assignment value is nonempty, starts with a
non-space character, contains no line terminator, and is invariant under
trimming. -/
theorem literal_shape {lit : Str}
    (h : numberGrammar lit = true ∨ booleanGrammar lit = true ∨
         (textMatchFn lit).isSome = true) :
    lit ≠ [] ∧ (∀ c, lit.head? = some c → isJsSpace c = false) ∧
    (∀ c ∈ lit, isLineTerminator c = false) ∧ jsTrim lit = lit := by
  rcases h with h | h | h
  · obtain ⟨hspace, hterm⟩ := numberGrammar_no_space h
    obtain ⟨sign, r, _, hs, hne, _, _, _⟩ := numberGrammar_dissect h
    have hnil : lit ≠ [] := by
      rw [hs]
      intro hx
      exact hne (List.append_eq_nil.mp hx).2
    refine ⟨hnil, ?_, hterm, jsTrim_eq_self_of_all hspace⟩
    intro c hc
    cases lit with
    | nil => cases hc
    | cons a t =>
      injection hc with hc
      exact hspace c (by rw [← hc]; simp)
  · have hchars := booleanGrammar_chars h
    have hspace : ∀ c ∈ lit, isJsSpace c = false :=
      fun c hc => (not_space_term_of_lower_word (hchars c hc)).1
    have hterm : ∀ c ∈ lit, isLineTerminator c = false :=
      fun c hc => (not_space_term_of_lower_word (hchars c hc)).2
    refine ⟨booleanGrammar_ne_nil h, ?_, hterm, jsTrim_eq_self_of_all hspace⟩
    intro c hc
    cases lit with
    | nil => cases hc
    | cons a t =>
      injection hc with hc
      exact hspace c (by rw [← hc]; simp)
  · obtain ⟨c, mid, d, hs, hqc, hqd, hmid, _⟩ := textMatchFn_dissect h
    have hterm : ∀ x ∈ lit, isLineTerminator x = false := by
      intro x hx
      rw [hs] at hx
      rcases List.mem_cons.mp hx with rfl | hx
      · exact not_term_of_quote hqc
      · rcases List.mem_append.mp hx with hx | hx
        · exact hmid x hx
        · rw [List.mem_singleton.mp hx]
          exact not_term_of_quote hqd
    have htrim : jsTrim lit = lit := by
      apply jsTrim_eq_self_of_ends
      · intro x hx
        rw [hs] at hx
        injection hx with hx
        rw [← hx]
        exact not_space_of_quote hqc
      · intro x hx
        rw [hs] at hx
        rw [show (c :: (mid ++ [d])) = (c :: mid) ++ [d] from rfl,
          List.getLast?_concat] at hx
        injection hx with hx
        rw [← hx]
        exact not_space_of_quote hqd
    refine ⟨by rw [hs]; simp, ?_, hterm, htrim⟩
    intro x hx
    rw [hs] at hx
    injection hx with hx
    rw [← hx]
    exact not_space_of_quote hqc

/-- A boolean-grammar match is a nonempty string whose head lower-cases to
t or f. -/
theorem booleanGrammar_head {lit : Str} (hb : booleanGrammar lit = true) :
    ∃ c rest, lit = c :: rest ∧ (toLowerChar c = 't' ∨ toLowerChar c = 'f') := by
  simp only [booleanGrammar, Bool.or_eq_true, decide_eq_true_eq] at hb
  cases lit with
  | nil => rcases hb with hb | hb <;> simp at hb
  | cons c rest =>
    refine ⟨c, rest, rfl, ?_⟩
    rcases hb with hb | hb
    · left
      have h2 := congrArg (fun l => l.headD ' ') hb
      simpa using h2
    · right
      have h2 := congrArg (fun l => l.headD ' ') hb
      simpa using h2

/-- A character that lower-cases to t or f is not a quote, digit, dot or
minus. -/
theorem headletter_facts {c : Char} (h : toLowerChar c = 't' ∨ toLowerChar c = 'f') :
    isQuote c = false ∧ isDigitChar c = false ∧ c ≠ '.' ∧ c ≠ '-' := by
  unfold toLowerChar at h
  by_cases hu : 65 ≤ charNat c ∧ charNat c ≤ 90
  · obtain ⟨h1, h2⟩ := hu
    refine ⟨?_, ?_, ?_, ?_⟩
    · simp only [isQuote, Bool.or_eq_false_iff, decide_eq_false_iff_not]
      omega
    · simp only [isDigitChar, Bool.and_eq_false_iff, decide_eq_false_iff_not]
      omega
    · intro hc
      subst hc
      exact absurd h1 (by decide)
    · intro hc
      subst hc
      exact absurd h1 (by decide)
  · rw [if_neg hu] at h
    rcases h with rfl | rfl <;> exact ⟨rfl, rfl, by decide, by decide⟩

theorem boolean_not_number {lit : Str} (hb : booleanGrammar lit = true) :
    numberGrammar lit = false := by
  obtain ⟨c, rest, rfl, hc⟩ := booleanGrammar_head hb
  obtain ⟨_, hd, hdot, hminus⟩ := headletter_facts hc
  by_contra hnum
  rw [Bool.not_eq_false] at hnum
  obtain ⟨sign, r, hsign, hs, _, hall, _, _⟩ := numberGrammar_dissect hnum
  rcases hsign with rfl | rfl
  · rw [List.nil_append] at hs
    have hcr : c ∈ r := by rw [← hs]; simp
    rcases hall c hcr with h1 | h1
    · rw [hd] at h1
      cases h1
    · exact hdot h1
  · have : c = '-' := by
      have h2 := congrArg (fun l => l.headD ' ') hs
      simpa using h2
    exact hminus this

theorem boolean_not_text {lit : Str} (hb : booleanGrammar lit = true) :
    textMatchFn lit = none := by
  obtain ⟨c, rest, rfl, hc⟩ := booleanGrammar_head hb
  obtain ⟨hq, _, _, _⟩ := headletter_facts hc
  simp only [textMatchFn]
  rw [if_neg (by simp [hq])]

theorem text_not_number {lit : Str} (ht : (textMatchFn lit).isSome = true) :
    numberGrammar lit = false := by
  obtain ⟨c, mid, d, rfl, hqc, _, _, _⟩ := textMatchFn_dissect ht
  have hcq : charNat c = 34 ∨ charNat c = 39 := by
    simpa [isQuote] using hqc
  by_contra hnum
  rw [Bool.not_eq_false] at hnum
  obtain ⟨sign, r, hsign, hs, _, hall, _, _⟩ := numberGrammar_dissect hnum
  rcases hsign with rfl | rfl
  · rw [List.nil_append] at hs
    have hcr : c ∈ r := by rw [← hs]; simp
    rcases hall c hcr with h1 | h1
    · simp only [isDigitChar, Bool.and_eq_true, decide_eq_true_eq] at h1
      omega
    · subst h1
      exact absurd hcq (by decide)
  · have : c = '-' := by
      have h2 := congrArg (fun l => l.headD ' ') hs
      simpa using h2
    subst this
    exact absurd hcq (by decide)

/-- The assignment regex on the canonical input set IDENT to LITERAL (single
spaces): group 1 is the identifier, group 2 the literal. -/
theorem assignMatch_canonical (ident literal : Str)
    (hidne : ident ≠ []) (hidw : ∀ c ∈ ident, isWordChar c = true)
    (hlitne : literal ≠ [])
    (hlithead : ∀ c, literal.head? = some c → isJsSpace c = false)
    (hlitterm : ∀ c ∈ literal, isLineTerminator c = false) :
    assignMatch ("set ".toList ++ ident ++ " to ".toList ++ literal) =
      some (ident, literal) := by
  obtain ⟨i0, itl, rfl⟩ : ∃ i0 itl, ident = i0 :: itl := by
    cases ident with
    | nil => exact absurd rfl hidne
    | cons a b => exact ⟨a, b, rfl⟩
  obtain ⟨l0, ltl, rfl⟩ : ∃ l0 ltl, literal = l0 :: ltl := by
    cases literal with
    | nil => exact absurd rfl hlitne
    | cons a b => exact ⟨a, b, rfl⟩
  have hi0 : isWordChar i0 = true := hidw i0 (by simp)
  have hl0 : isJsSpace l0 = false := hlithead l0 rfl
  have hform : "set ".toList ++ (i0 :: itl) ++ " to ".toList ++ (l0 :: ltl) =
      's' :: 'e' :: 't' :: ' ' :: i0 ::
        (itl ++ ' ' :: 't' :: 'o' :: ' ' :: l0 :: ltl) := by
    simp
  have hspan1 := takeWhile_append_cons (p := isWordChar) (i0 :: itl) ' '
    ('t' :: 'o' :: ' ' :: l0 :: ltl) hidw rfl
  simp only [List.cons_append] at hspan1
  have hsp : isJsSpace ' ' = true := by decide
  have hspt : isJsSpace 't' = false := by decide
  have hws3a : (' ' :: l0 :: ltl).takeWhile isJsSpace = [' '] := by
    simp [List.takeWhile_cons, hl0, hsp]
  have hws3b : (' ' :: l0 :: ltl).dropWhile isJsSpace = l0 :: ltl := by
    simp [List.dropWhile_cons, hl0, hsp]
  have hall4 : ((l0 :: ltl).all fun c => !isLineTerminator c) = true := by
    rw [List.all_eq_true]
    intro x hx
    simp [hlitterm x hx]
  rw [hform]
  simp only [assignMatch]
  rw [if_pos (show toLowerChar 's' = 's' ∧ toLowerChar 'e' = 'e' ∧ toLowerChar 't' = 't'
    from ⟨rfl, rfl, rfl⟩)]
  have htt : toLowerChar 't' = 't' := by decide
  have hto : toLowerChar 'o' = 'o' := by decide
  simp [List.takeWhile_cons, List.dropWhile_cons, hsp, hspt,
    not_space_of_word hi0, hspan1.1, hspan1.2, hws3a, hws3b, hall4, htt, hto]

/-- parseValueInstruction on a valid literal produces exactly the
instruction that the corresponding literal pattern's parseInput would
produce for the literal alone. -/
theorem parseValue_matches_literal {lit : Str}
    (h : numberGrammar lit = true ∨ booleanGrammar lit = true ∨
         (textMatchFn lit).isSome = true) :
    ∃ vi, parseValueInstruction lit = some vi ∧ parseLiteralAlone lit = some vi := by
  rcases h with h | h | h
  · refine ⟨.mk "math_number" [("NUM", lit)] [], ?_, ?_⟩
    · simp [parseValueInstruction, h]
    · simp [parseLiteralAlone, numberPatternE, numberMatchFn, h, numberParse,
        parseFloat_not_nan_of_numberGrammar h]
  · have hnum := boolean_not_number h
    have htext := boolean_not_text h
    have hcases : lit.map toLowerChar = "true".toList ∨
        lit.map toLowerChar = "false".toList := by
      simpa [booleanGrammar] using h
    rcases hcases with hc | hc
    · refine ⟨.mk "logic_boolean" [("BOOL", "TRUE".toList)] [], ?_, ?_⟩
      · simp [parseValueInstruction, hnum, htext, h, hc]
      · simp [parseLiteralAlone, numberPatternE, numberMatchFn, hnum, textPatternE,
          htext, booleanPatternE, booleanMatchFn, h, booleanParse, hc]
    · have hne : ¬ (lit.map toLowerChar = ['t', 'r', 'u', 'e']) := by
        rw [hc]
        decide
      refine ⟨.mk "logic_boolean" [("BOOL", "FALSE".toList)] [], ?_, ?_⟩
      · simp [parseValueInstruction, hnum, htext, h, hne]
      · simp [parseLiteralAlone, numberPatternE, numberMatchFn, hnum, textPatternE,
          htext, booleanPatternE, booleanMatchFn, h, booleanParse, hne]
  · have hnum := text_not_number h
    obtain ⟨c, mid, d, _, _, _, _, hres⟩ := textMatchFn_dissect h
    refine ⟨.mk "text" [("TEXT", mid)] [], ?_, ?_⟩
    · simp [parseValueInstruction, hnum, hres]
    · simp [parseLiteralAlone, numberPatternE, numberMatchFn, hnum, textPatternE,
        hres, textParse]

/-- Claim C3: for every input set IDENT to LITERAL where IDENT is a \w+
identifier and LITERAL is a valid number, boolean or quoted-text literal,
the variable-assignment pattern's parseInput returns a variables_set
instruction whose children list is exactly one entry attached to the VALUE
input, and that child's instruction equals what the corresponding literal
pattern's parseInput produces for LITERAL alone. -/
theorem claim3_assignment_refinement (ident literal : Str)
    (hidne : ident ≠ []) (hidw : ∀ c ∈ ident, isWordChar c = true)
    (hlit : numberGrammar literal = true ∨ booleanGrammar literal = true ∨
            (textMatchFn literal).isSome = true) :
    ∃ vi,
      variableAssignmentPatternE.matchFn
          ("set ".toList ++ ident ++ " to ".toList ++ literal) =
        some ["set ".toList ++ ident ++ " to ".toList ++ literal, ident, literal] ∧
      variableAssignmentPatternE.parse
          ["set ".toList ++ ident ++ " to ".toList ++ literal, ident, literal] =
        some (BlockInstr.mk "variables_set" [("VAR", ident)] [("VALUE", vi)]) ∧
      parseLiteralAlone literal = some vi := by
  obtain ⟨hlitne, hlithead, hlitterm, hlittrim⟩ := literal_shape hlit
  obtain ⟨vi, hval, halone⟩ := parseValue_matches_literal hlit
  have hmatch := assignMatch_canonical ident literal hidne hidw hlitne hlithead hlitterm
  refine ⟨vi, ?_, ?_, halone⟩
  · show (assignMatch ("set ".toList ++ ident ++ " to ".toList ++ literal)).map
        (fun vr => ["set ".toList ++ ident ++ " to ".toList ++ literal, vr.1, vr.2]) = _
    rw [hmatch]
    rfl
  · show variableAssignmentParse _ = _
    show (match parseValueInstruction (jsTrim literal) with
      | none => none
      | some v => some (BlockInstr.mk "variables_set" [("VAR", ident)] [("VALUE", v)])) = _
    rw [hlittrim, hval]

/-- Witness for claim C3 at set x to 5. -/
theorem claim3_assignment_refinement_witness :
    ∃ vi,
      variableAssignmentPatternE.matchFn
          ("set ".toList ++ "x".toList ++ " to ".toList ++ "5".toList) =
        some ["set ".toList ++ "x".toList ++ " to ".toList ++ "5".toList,
          "x".toList, "5".toList] ∧
      variableAssignmentPatternE.parse
          ["set ".toList ++ "x".toList ++ " to ".toList ++ "5".toList,
            "x".toList, "5".toList] =
        some (BlockInstr.mk "variables_set" [("VAR", "x".toList)]
          [("VALUE", vi)]) ∧
      parseLiteralAlone "5".toList = some vi :=
  claim3_assignment_refinement "x".toList "5".toList (by decide) (by decide)
    (Or.inl (by decide))
